import Mathlib

/-!
Shallow embedding of the `k-means-clustering` TypeScript repository
(src/types/index.ts, src/algorithms/kmeans.ts, src/utils/euclidianDistance.ts)
and verification of its specification.

Modelling conventions:
* JavaScript numbers appearing in the clustering arithmetic are modelled as
  exact rationals (ℚ).
* `Math.random()` is modelled as a stream of rationals together with the index
  of the next call (`RandState`); well-behaved streams (`validRand`) produce
  values in `[0, 1)` exactly as `Math.random` does.
* `euclideanDistance` returns a square root, which is irrational in general.
  The embedding works with the squared distance throughout: `Real.sqrt` is
  strictly monotone on nonnegatives, so every comparison `dist a b < dist c d`
  in the source holds iff the same comparison holds between the squares, and
  `dist a b < tol` holds iff `0 < tol ∧ distSq a b < tol * tol`.
* `while` loops are modelled by fuel recursion; the fuel passed at every call
  site is provably sufficient, so the embedding computes exactly the loop's
  result.
* Thrown exceptions are modelled with `Except`; JavaScript non-termination
  (which only the k-means++ selection loop could exhibit, under an
  out-of-range random source) is modelled with `Option.none`.
-/

/-- A data point: an ordered sequence of coordinates (`number[]` in the
source), modelled as exact rationals. -/
abbrev Point := List ℚ

/-- `Cluster` from src/types/index.ts: a centroid paired with the points
currently assigned to it. -/
structure Cluster where
  centroid : Point
  points : List Point
deriving DecidableEq, Repr

/-- The `Math.random()` source, modelled as a stream of rationals: `g n` is the
value returned by the n-th call, `idx` is the index of the next call. -/
structure RandState where
  g : ℕ → ℚ
  idx : ℕ

/-- One call of `Math.random()`: yields the next stream value and advances the
stream. -/
def randNext (s : RandState) : ℚ × RandState :=
  (s.g s.idx, ⟨s.g, s.idx + 1⟩)

/-- The stream behaves like `Math.random()`: every produced value lies in
`[0, 1)`. -/
def validRand (s : RandState) : Prop :=
  ∀ n, 0 ≤ s.g n ∧ s.g n < 1

/-- Square of `euclideanDistance` (src/utils/euclidianDistance.ts).  The source
computes `sqrt(Σ (a i - b i)^2)`; the embedding keeps the sum of squares, which
determines every comparison made by the source (sqrt is strictly monotone on
nonnegatives).  The length-mismatch throw of the source cannot fire at any
internal call site (all lengths agree after entry validation); `zipWith`
truncates instead. -/
def euclideanDistanceSq (p1 p2 : Point) : ℚ :=
  (List.zipWith (fun a b => (a - b) ^ 2) p1 p2).sum

/-- The centroid scan inside `assignPointsToCentroidClusters`: walks the
remaining centroids carrying the index of the centroid under scan and the
current `(nearestIndex, shortestDistance²)` accumulator; a centroid replaces
the accumulator exactly when its distance is strictly smaller. -/
def nearestAux (p : Point) : List Point → ℕ → ℕ × ℚ → ℕ × ℚ
  | [], _, best => best
  | c :: rest, i, best =>
    nearestAux p rest (i + 1)
      (if euclideanDistanceSq p c < best.2 then (i, euclideanDistanceSq p c) else best)

/-- Index of the nearest centroid for one point, as computed by the source:
`nearestIndex` starts at 0 with baseline distance to `centroids[0]`, then every
centroid (index 0 included) is scanned with a strict comparison, so the first
centroid attaining the minimum wins. -/
def nearestCentroidIndex (p : Point) (centroids : List Point) : ℕ :=
  (nearestAux p centroids 0 (0, euclideanDistanceSq p (centroids.headD []))).1

/-- `assignPointsToCentroidClusters` (src/types/index.ts lines 180-211): one
cluster per centroid, in centroid order; cluster `i` holds exactly the data
points whose nearest-centroid index is `i`, in dataset order (the source pushes
points while traversing `data` once). -/
def assignPointsToCentroidClusters (data centroids : List Point) : List Cluster :=
  (List.range centroids.length).map (fun i =>
    { centroid := centroids.getD i [],
      points := data.filter (fun p => nearestCentroidIndex p centroids == i) })

/-- The value computed by `calculateCentroidPosition` when none of its guards
fires: the points are summed into a zero vector of the first point's dimension
and divided by the number of points. -/
def centroidMeanValue (points : List Point) : Point :=
  ((points.foldl (fun mean p => List.zipWith (· + ·) mean p)
      (List.replicate (points.headD []).length 0)).map
    (fun v => v / (points.length : ℚ)))

/-- The `points.forEach` summation of `calculateCentroidPosition` over
rational coordinates: per point, the dimension check of the source, then
`mean[i] += value` (the per-coordinate `typeof`/`isNaN` guard cannot fire on
exact rationals; it is modelled separately on JS values below).  The source's
message interpolates the two lengths; the embedding keeps a fixed message. -/
def centroidAdd (d : ℕ) : List Point → Point → Except String Point
  | [], mean => .ok mean
  | p :: rest, mean =>
    if p.length ≠ d then .error "Point has incorrect dimensions."
    else centroidAdd d rest (List.zipWith (· + ·) mean p)

/-- `calculateCentroidPosition` (src/types/index.ts lines 219-250) over
rational coordinates, with every guard of the source that can fire on
rationals: the empty-cluster throw, the `dimensionOfPoints < 1` throw — which
is reachable from `kMeans` on a validated dataset of zero-dimensional points —
and the per-point dimension-mismatch throw. -/
def calculateCentroidPosition (points : List Point) : Except String Point :=
  if points.length = 0 then .error "Cannot calculate the mean of an empty cluster."
  else if (points.headD []).length < 1 then
    .error "Points must have at least one dimension."
  else
    match centroidAdd (points.headD []).length points
        (List.replicate (points.headD []).length 0) with
    | .error e => .error e
    | .ok total => .ok (total.map (fun v => v / (points.length : ℚ)))

/-- The convergence test of the k-means loop:
`centroids.every((c, i) => euclideanDistance(c, newCentroids[i]) < tolerance)`.
Since `euclideanDistance = sqrt (euclideanDistanceSq)` and the square root is
nonnegative, `dist < tolerance` holds iff `0 < tolerance` and the squared
distance is below `tolerance²`. -/
def convergenceTest (centroids newCentroids : List Point) (tolerance : ℚ) : Bool :=
  (centroids.zip newCentroids).all
    (fun cn => decide (0 < tolerance ∧ euclideanDistanceSq cn.1 cn.2 < tolerance * tolerance))

/-- The per-point weight computation of k-means++ seeding: the source folds the
centroids keeping the smallest `euclideanDistance` (starting from `Infinity`)
and finally squares it; since all distances are nonnegative and the centroid
list is non-empty at every call, this equals the minimum of the squared
distances.  The `[]` case returns 0 and is unreachable (the source would return
`Infinity` there). -/
def minDistSq (p : Point) : List Point → ℚ
  | [] => 0
  | c :: rest => rest.foldl (fun m q => min m (euclideanDistanceSq p q)) (euclideanDistanceSq p c)

/-- The cumulative-sum walk of k-means++ seeding: starting from a running sum
`cum` and index `i`, select the first index whose cumulative weight is `≥` the
drawn value.  `none` models the source's `for` loop ending without a `break`
(in which case the surrounding `while` loop would never make progress). -/
def selectIndexGo : List ℚ → ℚ → ℚ → ℕ → Option ℕ
  | [], _, _, _ => none
  | d :: rest, rv, cum, i =>
    if rv ≤ cum + d then some i else selectIndexGo rest rv (cum + d) (i + 1)

/-- Entry point of the cumulative-sum walk (cumulative sum 0, index 0). -/
def selectIndex (distances : List ℚ) (rv : ℚ) : Option ℕ :=
  selectIndexGo distances rv 0 0

/-- `Math.floor(Math.random() * data.length)`, the random index for the first
centroid. -/
def kppPickIndex (dataLen : ℕ) (r : ℚ) : ℕ :=
  Int.toNat ⌊r * (dataLen : ℚ)⌋

/-- The `while (centroids.length < k)` loop of
`initializeCentroidsWithKMeansPlusPlus`, with fuel.  Each pass computes the
squared-distance weights, draws `Math.random() * totalDistance` and appends the
selected data point.  Fuel `k` is always sufficient since every pass grows the
centroid list by one; `none` on fuel exhaustion or failed selection models
non-termination of the source loop. -/
def kppLoopF (data : List Point) (k : ℕ) :
    ℕ → List Point → RandState → Option (List Point × RandState)
  | 0, centroids, s => if centroids.length < k then none else some (centroids, s)
  | fuel + 1, centroids, s =>
    if centroids.length < k then
      let distances := data.map (fun p => minDistSq p centroids)
      let r := randNext s
      match selectIndex distances (r.1 * distances.sum) with
      | some i => kppLoopF data k fuel (centroids ++ [data.getD i []]) r.2
      | none => none
    else some (centroids, s)

/-- `initializeCentroidsWithKMeansPlusPlus` (src/types/index.ts lines 131-172):
pick the first centroid at a uniformly random index, then run the weighted
selection loop until `k` centroids are chosen. -/
def initializeCentroidsWithKMeansPlusPlus (data : List Point) (k : ℕ) (s : RandState) :
    Option (List Point × RandState) :=
  let r := randNext s
  kppLoopF data k k [data.getD (kppPickIndex data.length r.1) []] r.2

/-- The `clusters.map` step producing the new centroids inside the k-means
loop: an empty cluster is re-seeded by `initializeCentroidsWithKMeansPlusPlus
(data, 1)[0]` (consuming one random draw), a non-empty cluster gets
`calculateCentroidPosition` of its points, whose throw aborts the whole update.
The `map` is sequential in the source, so the random state is threaded left to
right and an error in one cluster stops the traversal.  The `none` branch is
unreachable: seeding with `k = 1` never enters its selection loop. -/
def updateCentroids (data : List Point) :
    List Cluster → RandState → Except String (List Point × RandState)
  | [], s => .ok ([], s)
  | cl :: rest, s =>
    if cl.points.isEmpty then
      match initializeCentroidsWithKMeansPlusPlus data 1 s with
      | some (cs, s1) =>
        match updateCentroids data rest s1 with
        | .error e => .error e
        | .ok u => .ok (cs.headD [] :: u.1, u.2)
      | none =>
        match updateCentroids data rest s with
        | .error e => .error e
        | .ok u => .ok ([] :: u.1, u.2)
    else
      match calculateCentroidPosition cl.points with
      | .error e => .error e
      | .ok m =>
        match updateCentroids data rest s with
        | .error e => .error e
        | .ok u => .ok (m :: u.1, u.2)

/-- The mutable state of the k-means convergence loop. -/
structure KMState where
  centroids : List Point
  clusters : List Cluster
  hasConverged : Bool
  iteration : ℕ
  rand : RandState

/-- One body execution of the k-means `while` loop: assignment under the
current centroids, centroid update (with re-seeding of empty clusters; its
throw aborts the body), convergence test between old and new centroids, then
replace the centroids and increment the iteration counter. -/
def iterOnce (data : List Point) (tolerance : ℚ) (st : KMState) :
    Except String KMState :=
  let clusters := assignPointsToCentroidClusters data st.centroids
  match updateCentroids data clusters st.rand with
  | .error e => .error e
  | .ok u => .ok
    { centroids := u.1
      clusters := clusters
      hasConverged := convergenceTest st.centroids u.1 tolerance
      iteration := st.iteration + 1
      rand := u.2 }

/-- The `while (!hasConverged && iteration < maxIterations)` loop of `kMeans`,
with fuel; a throw inside the body aborts the loop.  Every body execution
increments `iteration`, so fuel `maxIterations.toNat` (used at the call site,
where `iteration = 0`) makes the guard fail before the fuel runs out and the
embedding computes exactly the source loop. -/
def kMeansLoopF (data : List Point) (tolerance : ℚ) (maxIterations : ℤ) :
    ℕ → KMState → Except String KMState
  | 0, st => .ok st
  | fuel + 1, st =>
    if st.hasConverged = false ∧ (st.iteration : ℤ) < maxIterations then
      match iterOnce data tolerance st with
      | .error e => .error e
      | .ok st1 => kMeansLoopF data tolerance maxIterations fuel st1
    else .ok st

/-- `kMeans` (src/types/index.ts lines 79-121): entry validation, k-means++
seeding, the convergence loop (whose throws propagate out), and the clusters
of the last completed assignment phase as result.  `k` and `maxIterations` are
integers so that non-positive caller values are representable. -/
def kMeans (data : List Point) (k : ℤ) (maxIterations : ℤ) (tolerance : ℚ) (s : RandState) :
    Except String (Option (List Cluster × RandState)) :=
  if data.length = 0 ∨ k ≤ 0 ∨ (data.length : ℤ) < k then
    .error "Invalid number of clusters or empty dataset."
  else if data.all (fun p => p.length == (data.headD []).length) = false then
    .error "All data points must have the same dimensions."
  else
    match initializeCentroidsWithKMeansPlusPlus data k.toNat s with
    | none => .ok none
    | some (cs, s1) =>
      match kMeansLoopF data tolerance maxIterations maxIterations.toNat
        { centroids := cs, clusters := [], hasConverged := false,
          iteration := 0, rand := s1 } with
      | .error e => .error e
      | .ok st => .ok (some (st.clusters, st.rand))

/-- Whether a `kMeans` outcome is one of the two entry-validation errors (as
opposed to a success or one of the centroid-computation errors raised later,
inside the loop). -/
def isValidationError (r : Except String (Option (List Cluster × RandState))) : Bool :=
  match r with
  | .error e =>
    (e == "Invalid number of clusters or empty dataset.") ||
      (e == "All data points must have the same dimensions.")
  | .ok _ => false

/-- `calculateInertia` (src/types/index.ts lines 58-67): sum over clusters of
the squared point-to-centroid distances; `euclideanDistance(p, c) ** 2` equals
`euclideanDistanceSq p c` exactly. -/
def calculateInertia (clusters : List Cluster) : ℚ :=
  clusters.foldl
    (fun inertia cl =>
      inertia + cl.points.foldl (fun sum p => sum + euclideanDistanceSq p cl.centroid) 0)
    0

/-- The comparison `inertia < bestInertia` of `runKMeansWithOptimalInertia`.
`bestInertia` starts as `Infinity`, modelled by `none`: every inertia produced
by a run is a finite number, hence strictly below `Infinity`, so the first run
always wins the comparison. -/
def bestCheck (bestInertia : Option ℚ) (inertia : ℚ) : Bool :=
  match bestInertia with
  | none => true
  | some b => decide (inertia < b)

/-- The `for (let i = 0; i < numRuns; i++)` loop of
`runKMeansWithOptimalInertia`, with the loop counter as fuel: each pass runs
`kMeans` (propagating its failure) and keeps the run iff its inertia is
strictly below the best seen so far. -/
def runKMeansLoop (data : List Point) (k : ℤ) (maxIterations : ℤ) (tolerance : ℚ) :
    ℕ → Option ℚ → List Cluster → RandState → Except String (Option (List Cluster × RandState))
  | 0, _, bestClusters, s => .ok (some (bestClusters, s))
  | n + 1, bestInertia, bestClusters, s =>
    match kMeans data k maxIterations tolerance s with
    | .error e => .error e
    | .ok none => .ok none
    | .ok (some (clusters, s1)) =>
      if bestCheck bestInertia (calculateInertia clusters) then
        runKMeansLoop data k maxIterations tolerance n (some (calculateInertia clusters)) clusters s1
      else
        runKMeansLoop data k maxIterations tolerance n bestInertia bestClusters s1

/-- `runKMeansWithOptimalInertia` (src/types/index.ts lines 29-49): `numRuns`
runs of `kMeans`, best inertia wins, initial best is the empty cluster list
with `Infinity` inertia.  A non-positive `numRuns` executes zero passes. -/
def runKMeansWithOptimalInertia (data : List Point) (k : ℤ) (maxIterations : ℤ)
    (tolerance : ℚ) (numRuns : ℤ) (s : RandState) :
    Except String (Option (List Cluster × RandState)) :=
  runKMeansLoop data k maxIterations tolerance numRuns.toNat none [] s

/-- The sequence of results of the successive `kMeans` calls made by
`runKMeansWithOptimalInertia`, with the random state threaded from one run to
the next (derived bookkeeping definition; truncated if a run fails, which
cannot happen on valid input with a valid random source). -/
def kMeansRuns (data : List Point) (k : ℤ) (maxIterations : ℤ) (tolerance : ℚ) :
    ℕ → RandState → List (List Cluster × RandState)
  | 0, _ => []
  | n + 1, s =>
    match kMeans data k maxIterations tolerance s with
    | .ok (some (clusters, s1)) => (clusters, s1) :: kMeansRuns data k maxIterations tolerance n s1
    | _ => []

/-- The pure selection underlying `runKMeansLoop`: fold the list of run results
keeping the strictly best inertia (derived bookkeeping definition). -/
def foldBest : Option ℚ → List Cluster → List (List Cluster) → List Cluster
  | _, bestClusters, [] => bestClusters
  | bestInertia, bestClusters, clusters :: rest =>
    if bestCheck bestInertia (calculateInertia clusters) then
      foldBest (some (calculateInertia clusters)) clusters rest
    else
      foldBest bestInertia bestClusters rest

/-- A JavaScript value as seen by the coordinate guard of
`calculateCentroidPosition`: a finite number, `NaN`, `+Infinity`, `-Infinity`,
or a non-numeric value. -/
inductive JSVal where
  | num (q : ℚ)
  | nan
  | inf
  | ninf
  | other
deriving DecidableEq, Repr

/-- `typeof value === "number"`: true for every numeric value, `NaN` and the
infinities included. -/
def jsTypeofNumber : JSVal → Bool
  | .other => false
  | _ => true

/-- `isNaN(value)`: true exactly for `NaN` among numbers (for non-numeric
values `isNaN` coerces and typically yields true; that case is unreachable
behind the short-circuiting `typeof` test). -/
def jsIsNaN : JSVal → Bool
  | .nan => true
  | .other => true
  | _ => false

/-- IEEE-style addition on the modelled JavaScript values, used by
`mean[i] += value`.  `other` never reaches an addition (the guard throws
first); its rows are present only for totality. -/
def jsAdd : JSVal → JSVal → JSVal
  | .nan, _ => .nan
  | _, .nan => .nan
  | .other, _ => .nan
  | _, .other => .nan
  | .inf, .ninf => .nan
  | .ninf, .inf => .nan
  | .inf, _ => .inf
  | _, .inf => .inf
  | .ninf, _ => .ninf
  | _, .ninf => .ninf
  | .num a, .num b => .num (a + b)

/-- IEEE-style division by a positive count (`value / points.length`, with
`points.length ≥ 1` at the only call site). -/
def jsDiv : JSVal → ℚ → JSVal
  | .nan, _ => .nan
  | .other, _ => .nan
  | .inf, _ => .inf
  | .ninf, _ => .ninf
  | .num a, n => .num (a / n)

/-- The throw sites of `calculateCentroidPosition`, in source order. -/
inductive CentroidError where
  | emptyCluster
  | zeroDimension
  | dimensionMismatch (expected got : ℕ)
  | invalidCoordinate (dim : ℕ)
deriving DecidableEq, Repr

/-- The inner `point.forEach((value, i) => ...)` of
`calculateCentroidPosition`: for each coordinate, first the
`typeof value !== "number" || isNaN(value)` guard, then `mean[i] += value`.
The first offending coordinate wins.  The `([], _ :: _)` row is unreachable
(the point's length was checked against the mean's length). -/
def addCoordsJS : List JSVal → List JSVal → ℕ → Except CentroidError (List JSVal)
  | mean, [], _ => .ok mean
  | [], _ :: _, _ => .ok []
  | m :: mean, v :: point, i =>
    if jsTypeofNumber v = false ∨ jsIsNaN v = true then .error (.invalidCoordinate i)
    else
      match addCoordsJS mean point (i + 1) with
      | .error e => .error e
      | .ok rest => .ok (jsAdd m v :: rest)

/-- The outer `points.forEach` of `calculateCentroidPosition`: per point, the
dimension check, then the coordinate walk accumulating into `mean`. -/
def centroidSumJS (d : ℕ) : List (List JSVal) → List JSVal → Except CentroidError (List JSVal)
  | [], mean => .ok mean
  | p :: rest, mean =>
    if p.length ≠ d then .error (.dimensionMismatch d p.length)
    else
      match addCoordsJS mean p 0 with
      | .error e => .error e
      | .ok mean1 => centroidSumJS d rest mean1

/-- `calculateCentroidPosition` (src/types/index.ts lines 219-250) over
JavaScript values, including every guard of the source: empty input,
zero-dimension first point, per-point dimension check, per-coordinate
`typeof`/`isNaN` check, and final division by the number of points. -/
def calculateCentroidPositionJS (points : List (List JSVal)) :
    Except CentroidError (List JSVal) :=
  if points.length = 0 then .error .emptyCluster
  else if (points.headD []).length < 1 then .error .zeroDimension
  else
    match centroidSumJS (points.headD []).length points
        (List.replicate (points.headD []).length (.num 0)) with
    | .error e => .error e
    | .ok total => .ok (total.map (fun v => jsDiv v (points.length : ℚ)))

/-- Whether an `Except` value is a success. -/
def isOkE {ε α : Type _} : Except ε α → Bool
  | .ok _ => true
  | .error _ => false

/-- A value is a finite number. -/
def jsFinite : JSVal → Bool
  | .num _ => true
  | _ => false

/-- The rational carried by a finite value (0 otherwise). -/
def jsToQ : JSVal → ℚ
  | .num q => q
  | _ => 0

/-! ### Basic facts about distances -/

/-- Squared distances decompose coordinate by coordinate. -/
theorem euclideanDistanceSq_cons (a b : ℚ) (p q : Point) :
    euclideanDistanceSq (a :: p) (b :: q) = (a - b) ^ 2 + euclideanDistanceSq p q := by
  simp [euclideanDistanceSq]

/-- Squared distances are nonnegative. -/
theorem euclideanDistanceSq_nonneg : ∀ p q : Point, 0 ≤ euclideanDistanceSq p q := by
  intro p
  induction p with
  | nil => intro q; simp [euclideanDistanceSq]
  | cons a p ih =>
    intro q
    cases q with
    | nil => simp [euclideanDistanceSq]
    | cons b q =>
      rw [euclideanDistanceSq_cons]
      exact add_nonneg (sq_nonneg _) (ih q)

/-- An element read through `getD` within bounds belongs to the list. -/
theorem getD_mem_of_lt {α : Type _} (l : List α) (d : α) {i : ℕ} (h : i < l.length) :
    l.getD i d ∈ l := by
  rw [List.getD_eq_getElem l d h]
  exact List.getElem_mem h

/-! ### The first-minimum characterisation of the centroid scan (claim C4) -/

/-- Invariant of the centroid scan: the final accumulator is either the initial
one (no strictly smaller distance was found) or the first strict improvement,
which is minimal among all scanned centroids. -/
theorem nearestAux_spec (p : Point) :
    ∀ (rest : List Point) (i0 bi : ℕ) (bd : ℚ),
      (nearestAux p rest i0 (bi, bd) = (bi, bd) ∧
        ∀ q ∈ rest, bd ≤ euclideanDistanceSq p q) ∨
      (∃ m, m < rest.length ∧
        nearestAux p rest i0 (bi, bd) = (i0 + m, euclideanDistanceSq p (rest.getD m [])) ∧
        euclideanDistanceSq p (rest.getD m []) < bd ∧
        (∀ l, l < m →
          euclideanDistanceSq p (rest.getD m []) < euclideanDistanceSq p (rest.getD l [])) ∧
        (∀ l, m ≤ l → l < rest.length →
          euclideanDistanceSq p (rest.getD m []) ≤ euclideanDistanceSq p (rest.getD l []))) := by
  intro rest
  induction rest with
  | nil =>
    intro i0 bi bd
    exact Or.inl ⟨rfl, by simp⟩
  | cons c rest ih =>
    intro i0 bi bd
    by_cases h : euclideanDistanceSq p c < bd
    · have step : nearestAux p (c :: rest) i0 (bi, bd) =
          nearestAux p rest (i0 + 1) (i0, euclideanDistanceSq p c) := by
        simp [nearestAux, h]
      rcases ih (i0 + 1) i0 (euclideanDistanceSq p c) with ⟨hr, hall⟩ | ⟨m, hm, hr, hlt, hfirst, hmin⟩
      · refine Or.inr ⟨0, by simp, ?_, by simpa using h, by omega, ?_⟩
        · rw [step, hr]; simp
        · intro l _ hl
          cases l with
          | zero => simp
          | succ l =>
            simp only [List.getD_cons_succ, List.getD_cons_zero]
            exact hall _ (getD_mem_of_lt rest [] (by simpa using hl))
      · refine Or.inr ⟨m + 1, by simpa using hm, ?_, ?_, ?_, ?_⟩
        · rw [step, hr]; simp; omega
        · simp only [List.getD_cons_succ]
          exact lt_trans hlt h
        · intro l hl
          cases l with
          | zero =>
            simp only [List.getD_cons_succ, List.getD_cons_zero]
            exact hlt
          | succ l =>
            simp only [List.getD_cons_succ]
            exact hfirst l (by omega)
        · intro l hml hl
          cases l with
          | zero => omega
          | succ l =>
            simp only [List.getD_cons_succ]
            exact hmin l (by omega) (by simpa using hl)
    · have step : nearestAux p (c :: rest) i0 (bi, bd) =
          nearestAux p rest (i0 + 1) (bi, bd) := by
        simp [nearestAux, h]
      rcases ih (i0 + 1) bi bd with ⟨hr, hall⟩ | ⟨m, hm, hr, hlt, hfirst, hmin⟩
      · refine Or.inl ⟨by rw [step, hr], ?_⟩
        intro q hq
        rcases List.mem_cons.mp hq with rfl | hq
        · exact le_of_not_lt h
        · exact hall q hq
      · refine Or.inr ⟨m + 1, by simpa using hm, ?_, ?_, ?_, ?_⟩
        · rw [step, hr]; simp; omega
        · simp only [List.getD_cons_succ]
          exact hlt
        · intro l hl
          cases l with
          | zero =>
            simp only [List.getD_cons_succ, List.getD_cons_zero]
            exact lt_of_lt_of_le hlt (le_of_not_lt h)
          | succ l =>
            simp only [List.getD_cons_succ]
            exact hfirst l (by omega)
        · intro l hml hl
          cases l with
          | zero => omega
          | succ l =>
            simp only [List.getD_cons_succ]
            exact hmin l (by omega) (by simpa using hl)

/-- The nearest-centroid index is in range, attains the minimal squared
distance, and is the first index attaining it. -/
theorem nearest_spec (p : Point) (cs : List Point) (h : cs ≠ []) :
    nearestCentroidIndex p cs < cs.length ∧
    (∀ i, i < cs.length →
      euclideanDistanceSq p (cs.getD (nearestCentroidIndex p cs) []) ≤
        euclideanDistanceSq p (cs.getD i [])) ∧
    (∀ i, i < nearestCentroidIndex p cs →
      euclideanDistanceSq p (cs.getD (nearestCentroidIndex p cs) []) <
        euclideanDistanceSq p (cs.getD i [])) := by
  obtain ⟨c, rest, rfl⟩ : ∃ c rest, cs = c :: rest := by
    cases cs with
    | nil => exact absurd rfl h
    | cons c rest => exact ⟨c, rest, rfl⟩
  have hhead : (c :: rest).headD [] = (c :: rest).getD 0 [] := by simp
  rcases nearestAux_spec p (c :: rest) 0 0 (euclideanDistanceSq p ((c :: rest).headD []))
    with ⟨hr, hall⟩ | ⟨m, hm, hr, _hlt, hfirst, hmin⟩
  · have hj : nearestCentroidIndex p (c :: rest) = 0 := by
      simp only [List.headD_cons] at hr
      simp [nearestCentroidIndex, hr]
    rw [hj]
    refine ⟨by simp, ?_, by omega⟩
    intro i hi
    simp only [List.getD_cons_zero]
    have : euclideanDistanceSq p ((c :: rest).headD []) ≤
        euclideanDistanceSq p ((c :: rest).getD i []) :=
      hall _ (getD_mem_of_lt (c :: rest) [] hi)
    simpa using this
  · have hj : nearestCentroidIndex p (c :: rest) = m := by
      simp only [List.headD_cons] at hr
      simp [nearestCentroidIndex, hr]
    rw [hj]
    refine ⟨hm, ?_, hfirst⟩
    intro i hi
    by_cases him : i < m
    · exact le_of_lt (hfirst i him)
    · exact hmin i (by omega) hi

/-- Reading the `i`-th cluster produced by the assignment. -/
theorem assign_getD (data cs : List Point) (i : ℕ) (hi : i < cs.length) :
    (assignPointsToCentroidClusters data cs).getD i ⟨[], []⟩ =
      { centroid := cs.getD i [],
        points := data.filter (fun p => nearestCentroidIndex p cs == i) } := by
  have hlen : i < (assignPointsToCentroidClusters data cs).length := by
    simpa [assignPointsToCentroidClusters] using hi
  rw [List.getD_eq_getElem _ _ hlen]
  simp [assignPointsToCentroidClusters]

/-- The assignment produces one cluster per centroid. -/
theorem assign_length (data cs : List Point) :
    (assignPointsToCentroidClusters data cs).length = cs.length := by
  simp [assignPointsToCentroidClusters]

/-- The clusters carry the centroids, in order. -/
theorem assign_map_centroid (data cs : List Point) :
    (assignPointsToCentroidClusters data cs).map (fun cl => cl.centroid) = cs := by
  apply List.ext_getElem
  · simp [assignPointsToCentroidClusters]
  · intro i h1 h2
    simp only [List.getElem_map]
    simp [assignPointsToCentroidClusters, List.getD, List.getElem?_eq_getElem h2]

/-- C4: for every dataset and non-empty centroid sequence, the assignment
returns one cluster per centroid in centroid order; each point lands in the
cluster of the first centroid attaining the minimal (squared, equivalently
plain) Euclidean distance; within each cluster the points keep the dataset
order (they form a sublist of the dataset); nothing forces a cluster to be
non-empty. -/
theorem assign_nearest_first_tiebreak (data cs : List Point) (h : cs ≠ []) :
    (assignPointsToCentroidClusters data cs).length = cs.length ∧
    (assignPointsToCentroidClusters data cs).map (fun cl => cl.centroid) = cs ∧
    (∀ i, i < cs.length →
      ((assignPointsToCentroidClusters data cs).getD i ⟨[], []⟩).points.Sublist data) ∧
    (∀ p ∈ data, ∀ i, i < cs.length →
      (p ∈ ((assignPointsToCentroidClusters data cs).getD i ⟨[], []⟩).points ↔
        ((∀ j, j < cs.length →
            euclideanDistanceSq p (cs.getD i []) ≤ euclideanDistanceSq p (cs.getD j [])) ∧
         (∀ j, j < i →
            euclideanDistanceSq p (cs.getD i []) < euclideanDistanceSq p (cs.getD j []))))) := by
  refine ⟨assign_length data cs, assign_map_centroid data cs, ?_, ?_⟩
  · intro i hi
    rw [assign_getD data cs i hi]
    exact List.filter_sublist data
  · intro p hp i hi
    rw [assign_getD data cs i hi]
    simp only [List.mem_filter, beq_iff_eq]
    obtain ⟨hjlt, hjmin, hjfirst⟩ := nearest_spec p cs h
    constructor
    · rintro ⟨-, rfl⟩
      exact ⟨hjmin, hjfirst⟩
    · rintro ⟨hmin, hfirst⟩
      refine ⟨hp, ?_⟩
      rcases lt_trichotomy (nearestCentroidIndex p cs) i with hlt | heq | hgt
      · exact absurd (hjmin i hi) (not_le_of_lt (hfirst _ hlt))
      · exact heq
      · exact absurd (hmin _ hjlt) (not_le_of_lt (hjfirst i hgt))

/-- C4 witness: the characterisation evaluated on a concrete dataset and
centroid pair. -/
theorem assign_nearest_first_tiebreak_witness :
    (assignPointsToCentroidClusters [[0], [1], [10]] [[0], [10]]).length = 2 ∧
    (assignPointsToCentroidClusters [[0], [1], [10]] [[0], [10]]).map (fun cl => cl.centroid) =
      [[0], [10]] ∧
    (∀ i, i < ([[0], [10]] : List Point).length →
      ((assignPointsToCentroidClusters [[0], [1], [10]] [[0], [10]]).getD i ⟨[], []⟩).points.Sublist
        [[0], [1], [10]]) ∧
    (∀ p ∈ ([[0], [1], [10]] : List Point), ∀ i, i < ([[0], [10]] : List Point).length →
      (p ∈ ((assignPointsToCentroidClusters [[0], [1], [10]] [[0], [10]]).getD i ⟨[], []⟩).points ↔
        ((∀ j, j < ([[0], [10]] : List Point).length →
            euclideanDistanceSq p (([[0], [10]] : List Point).getD i []) ≤
              euclideanDistanceSq p (([[0], [10]] : List Point).getD j [])) ∧
         (∀ j, j < i →
            euclideanDistanceSq p (([[0], [10]] : List Point).getD i []) <
              euclideanDistanceSq p (([[0], [10]] : List Point).getD j []))))) :=
  assign_nearest_first_tiebreak [[0], [1], [10]] [[0], [10]] (by simp)

/-! ### Seeding always terminates with k centroids (claim C8) -/

/-- The fold computing the minimum distance stays nonnegative. -/
theorem foldl_min_nonneg (p : Point) :
    ∀ (l : List Point) (a : ℚ), 0 ≤ a →
      0 ≤ l.foldl (fun m q => min m (euclideanDistanceSq p q)) a := by
  intro l
  induction l with
  | nil => intro a ha; simpa using ha
  | cons c rest ih =>
    intro a ha
    exact ih _ (le_min ha (euclideanDistanceSq_nonneg p c))

/-- Every k-means++ weight is nonnegative. -/
theorem minDistSq_nonneg (p : Point) (cs : List Point) : 0 ≤ minDistSq p cs := by
  cases cs with
  | nil => simp [minDistSq]
  | cons c rest => exact foldl_min_nonneg p rest _ (euclideanDistanceSq_nonneg p c)

/-- The cumulative-sum walk succeeds as soon as the drawn value does not exceed
the total weight. -/
theorem selectIndexGo_some :
    ∀ (l : List ℚ) (rv cum : ℚ) (i0 : ℕ), l ≠ [] → rv ≤ cum + l.sum →
      ∃ j, selectIndexGo l rv cum i0 = some j ∧ j < i0 + l.length := by
  intro l
  induction l with
  | nil => intro rv cum i0 h; exact absurd rfl h
  | cons d rest ih =>
    intro rv cum i0 _ htot
    by_cases h : rv ≤ cum + d
    · exact ⟨i0, by simp [selectIndexGo, h], by simp⟩
    · cases rest with
      | nil =>
        exfalso
        apply h
        simpa using htot
      | cons e rest2 =>
        obtain ⟨j, hj, hjlt⟩ := ih rv (cum + d) (i0 + 1) (by simp) (by
          have : cum + (d :: e :: rest2).sum = (cum + d) + (e :: rest2).sum := by
            simp [List.sum_cons]; ring
          rw [this] at htot
          exact htot)
        have hstep : selectIndexGo (d :: e :: rest2) rv cum i0 =
            selectIndexGo (e :: rest2) rv (cum + d) (i0 + 1) := by
          rw [selectIndexGo]
          simp [h]
        refine ⟨j, by rw [hstep]; exact hj, by simp at hjlt ⊢; omega⟩

/-- Drawing `r * total` with `r ∈ [0, 1)` always selects an index within the
dataset, zero total weight included. -/
theorem selectIndex_some (distances : List ℚ) (r : ℚ) (hne : distances ≠ [])
    (hnn : ∀ x ∈ distances, 0 ≤ x) (hr0 : 0 ≤ r) (hr1 : r < 1) :
    ∃ j, selectIndex distances (r * distances.sum) = some j ∧ j < distances.length := by
  have hsum : 0 ≤ distances.sum := List.sum_nonneg hnn
  have hrv : r * distances.sum ≤ 0 + distances.sum := by
    have := mul_le_of_le_one_left hsum (le_of_lt hr1)
    simpa using this
  obtain ⟨j, hj, hjlt⟩ := selectIndexGo_some distances (r * distances.sum) 0 0 hne hrv
  exact ⟨j, hj, by simpa using hjlt⟩

/-- `randNext` preserves the stream, hence its validity. -/
theorem validRand_randNext {s : RandState} (h : validRand s) : validRand (randNext s).2 := h

/-- A valid stream draws values in `[0, 1)`. -/
theorem validRand_draw {s : RandState} (h : validRand s) :
    0 ≤ (randNext s).1 ∧ (randNext s).1 < 1 := h s.idx

/-- The k-means++ selection loop, run with enough fuel on a valid random
source, always terminates with exactly `k` centroids, each drawn from the
dataset or carried over from the accumulator. -/
theorem kppLoopF_some (data : List Point) (k : ℕ) (hdata : data ≠ []) :
    ∀ (fuel : ℕ) (cs : List Point) (s : RandState), validRand s → cs ≠ [] →
      cs.length ≤ k → k ≤ cs.length + fuel →
      ∃ out s2, kppLoopF data k fuel cs s = some (out, s2) ∧ out.length = k ∧
        out ≠ [] ∧ (∀ c ∈ out, c ∈ data ∨ c ∈ cs) ∧ s2.g = s.g := by
  intro fuel
  induction fuel with
  | zero =>
    intro cs s hs hcs hle hge
    have hlen : cs.length = k := by omega
    refine ⟨cs, s, ?_, hlen, hcs, fun c hc => Or.inr hc, rfl⟩
    simp [kppLoopF, hlen]
  | succ fuel ih =>
    intro cs s hs hcs hle hge
    by_cases h : cs.length < k
    · have hdne : data.map (fun p => minDistSq p cs) ≠ [] := by
        simpa using hdata
      have hdnn : ∀ x ∈ data.map (fun p => minDistSq p cs), 0 ≤ x := by
        intro x hx
        obtain ⟨p, -, rfl⟩ := List.mem_map.mp hx
        exact minDistSq_nonneg p cs
      obtain ⟨hr0, hr1⟩ := validRand_draw hs
      obtain ⟨j, hj, hjlt⟩ :=
        selectIndex_some (data.map (fun p => minDistSq p cs)) (randNext s).1 hdne hdnn hr0 hr1
      have hjdata : j < data.length := by simpa using hjlt
      obtain ⟨out, s2, hloop, hlen, hone, hmem, hg⟩ :=
        ih (cs ++ [data.getD j []]) (randNext s).2 (validRand_randNext hs)
          (by simp) (by simp; omega) (by simp; omega)
      refine ⟨out, s2, ?_, hlen, hone, ?_, hg⟩
      · simpa [kppLoopF, h, hj] using hloop
      · intro c hc
        rcases hmem c hc with hcd | hccs
        · exact Or.inl hcd
        · rcases List.mem_append.mp hccs with hl | hr
          · exact Or.inr hl
          · rw [List.mem_singleton] at hr
            subst hr
            exact Or.inl (getD_mem_of_lt data [] hjdata)
    · have hlen : cs.length = k := by omega
      refine ⟨cs, s, ?_, hlen, hcs, fun c hc => Or.inr hc, rfl⟩
      simp [kppLoopF, h]

/-- K-means++ seeding on a non-empty dataset with `k ≥ 1` and a valid random
source succeeds and yields `k` centroids, all drawn from the dataset. -/
theorem kpp_some (data : List Point) (k : ℕ) (s : RandState) (hdata : data ≠ [])
    (hk : 1 ≤ k) (hs : validRand s) :
    ∃ out s2, initializeCentroidsWithKMeansPlusPlus data k s = some (out, s2) ∧
      out.length = k ∧ out ≠ [] ∧ (∀ c ∈ out, c ∈ data) ∧ s2.g = s.g := by
  have hpick : data.getD (kppPickIndex data.length (randNext s).1) [] ∈ data := by
    obtain ⟨hr0, hr1⟩ := validRand_draw hs
    have hlenpos : 0 < data.length := List.length_pos.mpr hdata
    have hfl0 : (0 : ℤ) ≤ ⌊(randNext s).1 * (data.length : ℚ)⌋ :=
      Int.floor_nonneg.mpr (mul_nonneg hr0 (by positivity))
    have hflt : ⌊(randNext s).1 * (data.length : ℚ)⌋ < (data.length : ℤ) := by
      apply Int.floor_lt.mpr
      calc (randNext s).1 * (data.length : ℚ) < 1 * (data.length : ℚ) := by
            apply mul_lt_mul_of_pos_right hr1
            exact_mod_cast hlenpos
        _ = ((data.length : ℤ) : ℚ) := by push_cast; ring
    have : kppPickIndex data.length (randNext s).1 < data.length := by
      rw [kppPickIndex]
      exact (Int.toNat_lt hfl0).mpr hflt
    exact getD_mem_of_lt data [] this
  obtain ⟨out, s2, hloop, hlen, hone, hmem, hg⟩ :=
    kppLoopF_some data k hdata k [data.getD (kppPickIndex data.length (randNext s).1) []]
      (randNext s).2 (validRand_randNext hs) (by simp) (by simpa using hk) (by simp)
  refine ⟨out, s2, ?_, hlen, hone, ?_, hg⟩
  · simpa [initializeCentroidsWithKMeansPlusPlus] using hloop
  · intro c hc
    rcases hmem c hc with hcd | hccs
    · exact hcd
    · rw [List.mem_singleton] at hccs
      subst hccs
      exact hpick

/-- C8: for every non-empty dataset, every `k` with `1 ≤ k ≤ |data|` and every
valid random source, k-means++ seeding terminates successfully and returns a
sequence of exactly `k` centroids — the selection walk always picks some point
(even when every weight is zero), so the loop makes progress on every pass. -/
theorem kpp_terminates_with_k (data : List Point) (k : ℕ) (s : RandState)
    (hdata : data ≠ []) (hk : 1 ≤ k) (hkle : k ≤ data.length) (hs : validRand s) :
    ∃ out s2, initializeCentroidsWithKMeansPlusPlus data k s = some (out, s2) ∧
      out.length = k := by
  obtain ⟨out, s2, heq, hlen, -, -, -⟩ := kpp_some data k s hdata hk hs
  exact ⟨out, s2, heq, hlen⟩

/-- C8 witness: seeding three centroids from a three-point dataset with the
constant-zero random stream (every weight after the first pick is zero for the
chosen point, exercising the zero-weight edge case). -/
theorem kpp_terminates_with_k_witness :
    ∃ out s2,
      initializeCentroidsWithKMeansPlusPlus [[0], [1], [5]] 3 ⟨fun _ => 0, 0⟩ = some (out, s2) ∧
      out.length = 3 :=
  kpp_terminates_with_k [[0], [1], [5]] 3 ⟨fun _ => 0, 0⟩ (by simp) (by omega) (by simp)
    (fun n => by norm_num)

/-! ### The k-means convergence loop -/

/-- Seeding with `k = 1` never enters the selection loop: it returns the single
randomly picked point and consumes exactly one random draw. -/
theorem kpp_one (data : List Point) (s : RandState) :
    initializeCentroidsWithKMeansPlusPlus data 1 s =
      some ([data.getD (kppPickIndex data.length (s.g s.idx)) []], ⟨s.g, s.idx + 1⟩) := rfl

/-- Unfolding of the centroid update at an empty cluster: one random draw
picks the replacement point, then the remaining clusters are processed. -/
theorem updateCentroids_cons_empty (data : List Point) (c : Cluster) (rest : List Cluster)
    (s : RandState) (h : c.points.isEmpty = true) :
    updateCentroids data (c :: rest) s =
      match updateCentroids data rest ⟨s.g, s.idx + 1⟩ with
      | .error e => .error e
      | .ok u => .ok (data.getD (kppPickIndex data.length (s.g s.idx)) [] :: u.1, u.2) := by
  rw [updateCentroids, if_pos h, kpp_one]
  rfl

/-- Unfolding of the centroid update at a non-empty cluster: the mean
computation runs first and its throw aborts the traversal. -/
theorem updateCentroids_cons_nonempty (data : List Point) (c : Cluster)
    (rest : List Cluster) (s : RandState) (h : c.points.isEmpty = false) :
    updateCentroids data (c :: rest) s =
      match calculateCentroidPosition c.points with
      | .error e => .error e
      | .ok m =>
        match updateCentroids data rest s with
        | .error e => .error e
        | .ok u => .ok (m :: u.1, u.2) := by
  rw [updateCentroids, if_neg (by simp [h])]

/-- A successful centroid update produces one centroid per cluster and leaves
the random stream unchanged. -/
theorem updateCentroids_ok_facts (data : List Point) :
    ∀ (cl : List Cluster) (s : RandState) (u : List Point × RandState),
      updateCentroids data cl s = .ok u → u.1.length = cl.length ∧ u.2.g = s.g := by
  intro cl
  induction cl with
  | nil =>
    intro s u hu
    rw [updateCentroids] at hu
    injection hu with h2
    subst h2
    exact ⟨rfl, rfl⟩
  | cons c rest ih =>
    intro s u hu
    by_cases h : c.points.isEmpty
    · rw [updateCentroids_cons_empty data c rest s h] at hu
      cases hrec : updateCentroids data rest ⟨s.g, s.idx + 1⟩ with
      | error e => rw [hrec] at hu; exact nomatch hu
      | ok u1 =>
        rw [hrec] at hu
        injection hu with h2
        subst h2
        obtain ⟨hl, hg⟩ := ih ⟨s.g, s.idx + 1⟩ u1 hrec
        exact ⟨by simpa using hl, hg⟩
    · rw [updateCentroids_cons_nonempty data c rest s (by simpa using h)] at hu
      cases hcp : calculateCentroidPosition c.points with
      | error e => rw [hcp] at hu; exact nomatch hu
      | ok m =>
        rw [hcp] at hu
        cases hrec : updateCentroids data rest s with
        | error e => rw [hrec] at hu; exact nomatch hu
        | ok u1 =>
          rw [hrec] at hu
          injection hu with h2
          subst h2
          obtain ⟨hl, hg⟩ := ih s u1 hrec
          exact ⟨by simpa using hl, hg⟩

/-- Summing points of the expected dimension never throws: the fold of the
source is computed. -/
theorem centroidAdd_ok (d : ℕ) :
    ∀ (ps : List Point) (m : Point), (∀ p ∈ ps, p.length = d) →
      centroidAdd d ps m =
        .ok (ps.foldl (fun mean p => List.zipWith (· + ·) mean p) m) := by
  intro ps
  induction ps with
  | nil => intro m _; rfl
  | cons p rest ih =>
    intro m hd
    rw [centroidAdd, if_neg (by simp [hd p (List.mem_cons_self p rest)]),
      ih _ (fun q hq => hd q (List.mem_cons_of_mem p hq))]
    rfl

/-- On a non-empty uniform-dimension point list of positive dimension, no
guard of `calculateCentroidPosition` fires and the mean value is returned. -/
theorem calculateCentroidPosition_ok (d : ℕ) (ps : List Point) (hne : ps ≠ [])
    (hd : ∀ p ∈ ps, p.length = d) (hd1 : 1 ≤ d) :
    calculateCentroidPosition ps = .ok (centroidMeanValue ps) := by
  have h0 : ¬ ps.length = 0 := fun hzero => hne (List.length_eq_zero.mp hzero)
  have hhead : (ps.headD []).length = d := by
    cases ps with
    | nil => exact absurd rfl hne
    | cons q rest => exact hd q (List.mem_cons_self q rest)
  rw [calculateCentroidPosition, centroidMeanValue, hhead,
    if_neg h0, if_neg (by omega), centroidAdd_ok d ps _ hd]

/-- Every point of every cluster built by the assignment comes from the
dataset. -/
theorem assign_points_mem (data cs : List Point) :
    ∀ c ∈ assignPointsToCentroidClusters data cs, ∀ p ∈ c.points, p ∈ data := by
  intro c hc p hp
  rw [assignPointsToCentroidClusters] at hc
  obtain ⟨i, -, rfl⟩ := List.mem_map.mp hc
  exact (List.mem_filter.mp hp).1

/-- The centroid update succeeds whenever every cluster's points share one
positive dimension. -/
theorem updateCentroids_ok (data : List Point) (d : ℕ) (hd1 : 1 ≤ d) :
    ∀ (cl : List Cluster) (s : RandState),
      (∀ c ∈ cl, ∀ p ∈ c.points, p.length = d) →
      ∃ u, updateCentroids data cl s = .ok u := by
  intro cl
  induction cl with
  | nil => intro s _; exact ⟨([], s), rfl⟩
  | cons c rest ih =>
    intro s hdim
    by_cases h : c.points.isEmpty
    · obtain ⟨u, hu⟩ := ih ⟨s.g, s.idx + 1⟩
        (fun q hq => hdim q (List.mem_cons_of_mem c hq))
      refine ⟨(data.getD (kppPickIndex data.length (s.g s.idx)) [] :: u.1, u.2), ?_⟩
      rw [updateCentroids_cons_empty data c rest s h, hu]
    · have hne : c.points ≠ [] := by
        intro hnil
        rw [List.isEmpty_iff] at h
        exact h hnil
      have hcp := calculateCentroidPosition_ok d c.points hne
        (hdim c (List.mem_cons_self c rest)) hd1
      obtain ⟨u, hu⟩ := ih s (fun q hq => hdim q (List.mem_cons_of_mem c hq))
      refine ⟨(centroidMeanValue c.points :: u.1, u.2), ?_⟩
      rw [updateCentroids_cons_nonempty data c rest s (by simpa using h), hcp, hu]

/-- Elimination of a successful loop body into its field computations. -/
theorem iterOnce_ok_elim (data : List Point) (tol : ℚ) (st st1 : KMState)
    (h : iterOnce data tol st = .ok st1) :
    ∃ u, updateCentroids data (assignPointsToCentroidClusters data st.centroids)
        st.rand = .ok u ∧
      st1.centroids = u.1 ∧
      st1.clusters = assignPointsToCentroidClusters data st.centroids ∧
      st1.hasConverged = convergenceTest st.centroids u.1 tol ∧
      st1.iteration = st.iteration + 1 ∧
      st1.rand = u.2 := by
  simp only [iterOnce] at h
  cases hu : updateCentroids data (assignPointsToCentroidClusters data st.centroids)
      st.rand with
  | error e => rw [hu] at h; exact nomatch h
  | ok u =>
    rw [hu] at h
    injection h with h2
    subst h2
    exact ⟨u, rfl, rfl, rfl, rfl, rfl, rfl⟩

/-- A successful loop body preserves the number of centroids and the random
stream. -/
theorem iterOnce_ok_facts (data : List Point) (tol : ℚ) (st st1 : KMState)
    (h : iterOnce data tol st = .ok st1) :
    st1.centroids.length = st.centroids.length ∧ st1.rand.g = st.rand.g := by
  obtain ⟨u, hu, hc, -, -, -, hr⟩ := iterOnce_ok_elim data tol st st1 h
  obtain ⟨hl, hg⟩ := updateCentroids_ok_facts data _ st.rand u hu
  constructor
  · rw [hc, hl, assign_length]
  · rw [hr, hg]

/-- The loop body succeeds whenever the dataset has one positive dimension
(the clusters built by the assignment then satisfy the update's guards). -/
theorem iterOnce_ok (data : List Point) (tol : ℚ) (d : ℕ)
    (hdim : ∀ p ∈ data, p.length = d) (hd1 : 1 ≤ d) (st : KMState) :
    ∃ st1, iterOnce data tol st = .ok st1 := by
  obtain ⟨u, hu⟩ := updateCentroids_ok data d hd1
    (assignPointsToCentroidClusters data st.centroids) st.rand
    (fun c hc p hp => hdim p (assign_points_mem data st.centroids c hc p hp))
  refine ⟨{ centroids := u.1,
            clusters := assignPointsToCentroidClusters data st.centroids,
            hasConverged := convergenceTest st.centroids u.1 tol,
            iteration := st.iteration + 1, rand := u.2 }, ?_⟩
  simp only [iterOnce]
  rw [hu]

/-- With a dataset of one positive dimension the loop never throws. -/
theorem kMeansLoopF_ok (data : List Point) (tol : ℚ) (maxIters : ℤ) (d : ℕ)
    (hdim : ∀ p ∈ data, p.length = d) (hd1 : 1 ≤ d) :
    ∀ (fuel : ℕ) (st : KMState), ∃ st2, kMeansLoopF data tol maxIters fuel st = .ok st2 := by
  intro fuel
  induction fuel with
  | zero => intro st; exact ⟨st, rfl⟩
  | succ fuel ih =>
    intro st
    by_cases h : st.hasConverged = false ∧ (st.iteration : ℤ) < maxIters
    · obtain ⟨st1, h1⟩ := iterOnce_ok data tol d hdim hd1 st
      obtain ⟨st2, h2⟩ := ih st1
      refine ⟨st2, ?_⟩
      rw [kMeansLoopF, if_pos h, h1]
      exact h2
    · exact ⟨st, by rw [kMeansLoopF, if_neg h]⟩

/-- Loop invariant, conditioned on a successful run: the centroid count and
the random stream are preserved, and unless the loop never ran, the final
clusters come from an assignment under some pre-update centroid list of the
same length, with the convergence flag comparing exactly those pre-update
centroids to the final (post-update) centroids. -/
theorem kMeansLoopF_spec (data : List Point) (tol : ℚ) (maxIters : ℤ) :
    ∀ (fuel : ℕ) (st st2 : KMState), kMeansLoopF data tol maxIters fuel st = .ok st2 →
      st2.centroids.length = st.centroids.length ∧ st2.rand.g = st.rand.g ∧
      (st2 = st ∨
        ∃ cPre, cPre.length = st.centroids.length ∧
          st2.clusters = assignPointsToCentroidClusters data cPre ∧
          st2.hasConverged = convergenceTest cPre st2.centroids tol) := by
  intro fuel
  induction fuel with
  | zero =>
    intro st st2 hrun
    rw [kMeansLoopF] at hrun
    injection hrun with h2
    subst h2
    exact ⟨rfl, rfl, Or.inl rfl⟩
  | succ fuel ih =>
    intro st st2 hrun
    by_cases h : st.hasConverged = false ∧ (st.iteration : ℤ) < maxIters
    · rw [kMeansLoopF, if_pos h] at hrun
      cases hit : iterOnce data tol st with
      | error e => rw [hit] at hrun; exact nomatch hrun
      | ok st1 =>
        rw [hit] at hrun
        obtain ⟨ihlen, ihg, ihprov⟩ := ih st1 st2 hrun
        obtain ⟨hlen1, hg1⟩ := iterOnce_ok_facts data tol st st1 hit
        obtain ⟨u, hu, hc1, hcl1, hcv1, -, -⟩ := iterOnce_ok_elim data tol st st1 hit
        refine ⟨by rw [ihlen, hlen1], by rw [ihg, hg1], ?_⟩
        rcases ihprov with heq | ⟨cPre, hlen, hcl, hconv⟩
        · subst heq
          refine Or.inr ⟨st.centroids, rfl, hcl1, ?_⟩
          rw [hcv1, hc1]
        · exact Or.inr ⟨cPre, by rw [hlen, hlen1], hcl, hconv⟩
    · rw [kMeansLoopF, if_neg h] at hrun
      injection hrun with h2
      subst h2
      exact ⟨rfl, rfl, Or.inl rfl⟩

/-- Stop condition, conditioned on a successful run with enough fuel: the loop
halts exactly because the convergence flag became true or the iteration
counter reached `maxIterations`. -/
theorem kMeansLoopF_stop (data : List Point) (tol : ℚ) (maxIters : ℤ) :
    ∀ (fuel : ℕ) (st st2 : KMState), kMeansLoopF data tol maxIters fuel st = .ok st2 →
      (st.iteration : ℤ) ≤ maxIters → maxIters ≤ (st.iteration : ℤ) + fuel →
      (st2.hasConverged = true ∨ (st2.iteration : ℤ) = maxIters) := by
  intro fuel
  induction fuel with
  | zero =>
    intro st st2 hrun h1 h2
    rw [kMeansLoopF] at hrun
    injection hrun with heq
    subst heq
    right
    omega
  | succ fuel ih =>
    intro st st2 hrun h1 h2
    by_cases h : st.hasConverged = false ∧ (st.iteration : ℤ) < maxIters
    · rw [kMeansLoopF, if_pos h] at hrun
      cases hit : iterOnce data tol st with
      | error e => rw [hit] at hrun; exact nomatch hrun
      | ok st1 =>
        rw [hit] at hrun
        obtain ⟨u, -, -, -, -, hiter1, -⟩ := iterOnce_ok_elim data tol st st1 hit
        apply ih st1 st2 hrun
        · rw [hiter1]; push_cast; omega
        · rw [hiter1]; push_cast; push_cast at h2; omega
    · rw [kMeansLoopF, if_neg h] at hrun
      injection hrun with heq
      subst heq
      rcases Decidable.em (st.hasConverged = true) with hc | hc
      · exact Or.inl hc
      · have hfalse : st.hasConverged = false := by
          cases hb : st.hasConverged
          · rfl
          · exact absurd hb hc
        right
        have : ¬ (st.iteration : ℤ) < maxIters := fun hlt => h ⟨hfalse, hlt⟩
        omega

/-- Pointwise reading of the convergence test, for centroid lists of equal
length: all centroids moved (in squared distance) strictly below
`tolerance²`, and the tolerance is positive — exactly
`euclideanDistance < tolerance` for every index. -/
theorem convergenceTest_eq_true_iff :
    ∀ (cs ncs : List Point) (tol : ℚ), cs.length = ncs.length →
      (convergenceTest cs ncs tol = true ↔
        ∀ i, i < cs.length →
          0 < tol ∧ euclideanDistanceSq (cs.getD i []) (ncs.getD i []) < tol * tol) := by
  intro cs
  induction cs with
  | nil =>
    intro ncs tol _
    simp [convergenceTest]
  | cons c cs ih =>
    intro ncs tol hlen
    cases ncs with
    | nil => simp at hlen
    | cons n ncs =>
      have hlen2 : cs.length = ncs.length := by simpa using hlen
      constructor
      · intro hall i hi
        have hall2 : (0 < tol ∧ euclideanDistanceSq c n < tol * tol) ∧
            convergenceTest cs ncs tol = true := by
          simpa [convergenceTest] using hall
        cases i with
        | zero => simpa using hall2.1
        | succ i =>
          have := ((ih ncs tol hlen2).mp hall2.2) i (by simpa using hi)
          simpa using this
      · intro hall
        have h0 := hall 0 (by simp)
        have hrest : ∀ i, i < cs.length →
            0 < tol ∧ euclideanDistanceSq (cs.getD i []) (ncs.getD i []) < tol * tol := by
          intro i hi
          have := hall (i + 1) (by simpa using hi)
          simpa using this
        have := (ih ncs tol hlen2).mpr hrest
        simp only [List.getD_cons_zero] at h0
        simp [convergenceTest] at this ⊢
        exact ⟨⟨h0.1, h0.2⟩, this⟩

/-- On a valid configuration with a valid random source, `kMeans` passes
validation, seeds `k` centroids successfully, and returns the outcome of the
loop started from those centroids (the last assignment's clusters on success,
the loop's thrown error otherwise). -/
theorem kMeans_eq_loop (data : List Point) (k maxIters : ℤ) (tol : ℚ) (s : RandState)
    (hdata : data ≠ []) (hk1 : 1 ≤ k) (hk2 : k ≤ (data.length : ℤ))
    (hdim : data.all (fun p => p.length == (data.headD []).length) = true)
    (hs : validRand s) :
    ∃ cs0 s1, initializeCentroidsWithKMeansPlusPlus data k.toNat s = some (cs0, s1) ∧
      cs0.length = k.toNat ∧ s1.g = s.g ∧
      kMeans data k maxIters tol s =
        (match kMeansLoopF data tol maxIters maxIters.toNat
            ⟨cs0, [], false, 0, s1⟩ with
         | .error e => .error e
         | .ok st => .ok (some (st.clusters, st.rand))) := by
  obtain ⟨cs0, s1, hkpp, hlen0, -, -, hg1⟩ :=
    kpp_some data k.toNat s hdata (by omega) hs
  refine ⟨cs0, s1, hkpp, hlen0, hg1, ?_⟩
  have hcond : ¬ (data.length = 0 ∨ k ≤ 0 ∨ (data.length : ℤ) < k) := by
    push_neg
    refine ⟨?_, by omega, by omega⟩
    intro hzero
    exact hdata (List.length_eq_zero.mp hzero)
  rw [kMeans, if_neg hcond, hdim, hkpp]
  simp

/-- Uniform dimensionality in the validation's boolean form yields the
pointwise form. -/
theorem dims_of_all_check (data : List Point)
    (hdim : data.all (fun p => p.length == (data.headD []).length) = true) :
    ∀ p ∈ data, p.length = (data.headD []).length := by
  intro p hp
  have := List.all_eq_true.mp hdim p hp
  simpa using this

/-- C1 (amended: the points must have at least one dimension): on every valid
input (non-empty dataset, `1 ≤ k ≤ |data|`, uniform positive dimensionality,
`maxIterations ≥ 1`) and valid random source, `kMeans` returns successfully
with exactly `k` clusters.  Without the positive-dimension hypothesis the
source throws inside the first centroid update (see the counterexample). -/
theorem kMeans_returns_exactly_k (data : List Point) (k maxIters : ℤ) (tol : ℚ)
    (s : RandState) (hdata : data ≠ []) (hk1 : 1 ≤ k) (hk2 : k ≤ (data.length : ℤ))
    (hdim : data.all (fun p => p.length == (data.headD []).length) = true)
    (hd1 : 1 ≤ (data.headD []).length)
    (hmax : 1 ≤ maxIters) (hs : validRand s) :
    ∃ clusters s2, kMeans data k maxIters tol s = .ok (some (clusters, s2)) ∧
      (clusters.length : ℤ) = k := by
  obtain ⟨cs0, s1, hkpp, hlen0, hg1, hkm⟩ :=
    kMeans_eq_loop data k maxIters tol s hdata hk1 hk2 hdim hs
  have hdim2 := dims_of_all_check data hdim
  obtain ⟨stF, hstF⟩ := kMeansLoopF_ok data tol maxIters (data.headD []).length hdim2 hd1
    maxIters.toNat ⟨cs0, [], false, 0, s1⟩
  rw [hstF] at hkm
  refine ⟨stF.clusters, stF.rand, hkm, ?_⟩
  obtain ⟨f, hf⟩ : ∃ f, maxIters.toNat = f + 1 := ⟨maxIters.toNat - 1, by omega⟩
  rw [hf] at hstF
  have hguard : (⟨cs0, [], false, 0, s1⟩ : KMState).hasConverged = false ∧
      ((⟨cs0, [], false, 0, s1⟩ : KMState).iteration : ℤ) < maxIters :=
    ⟨rfl, by simp; omega⟩
  rw [kMeansLoopF, if_pos hguard] at hstF
  obtain ⟨st1, hit⟩ := iterOnce_ok data tol (data.headD []).length hdim2 hd1
    ⟨cs0, [], false, 0, s1⟩
  rw [hit] at hstF
  obtain ⟨hlen1, -⟩ := iterOnce_ok_facts data tol _ st1 hit
  obtain ⟨u, -, -, hcl1, -, -, -⟩ := iterOnce_ok_elim data tol _ st1 hit
  obtain ⟨hlenF, -, hprov⟩ := kMeansLoopF_spec data tol maxIters f st1 stF hstF
  rcases hprov with heq | ⟨cPre, hlenPre, hcl, -⟩
  · subst heq
    rw [hcl1, assign_length]
    simp only at hlen0 ⊢
    omega
  · rw [hcl, assign_length]
    simp only at hlen1 hlenPre ⊢
    omega

/-- C1 witness: a concrete valid run returning exactly `k = 1` cluster. -/
theorem kMeans_returns_exactly_k_witness :
    ∃ clusters s2, kMeans [[0], [1]] 1 1 1 ⟨fun _ => 0, 0⟩ = .ok (some (clusters, s2)) ∧
      (clusters.length : ℤ) = 1 :=
  kMeans_returns_exactly_k [[0], [1]] 1 1 1 ⟨fun _ => 0, 0⟩ (by simp) (by omega)
    (by simp) (by decide) (by decide) (by omega) (fun n => by norm_num)

/-- C1 counterexample: a dataset of zero-dimensional points passes every
validity condition of the claim (non-empty, `1 ≤ k ≤ |data|`, all points of
one dimensionality, `maxIterations ≥ 1`), yet `kMeans` does not return `k`
clusters: the first centroid update throws the zero-dimension error. -/
theorem kMeans_zero_dimension_counterexample :
    kMeans [[], []] 1 1 1 ⟨fun _ => 0, 0⟩ =
      .error "Points must have at least one dimension." := rfl

/-- Errors of the per-point summation are the dimension-mismatch message. -/
theorem centroidAdd_error (d : ℕ) :
    ∀ (ps : List Point) (m : Point) (e : String), centroidAdd d ps m = .error e →
      e = "Point has incorrect dimensions." := by
  intro ps
  induction ps with
  | nil =>
    intro m e he
    exact nomatch he
  | cons p rest ih =>
    intro m e he
    rw [centroidAdd] at he
    by_cases h : p.length ≠ d
    · rw [if_pos h] at he
      injection he with h2
      exact h2.symm
    · rw [if_neg h] at he
      exact ih _ e he

/-- Errors of the centroid mean are among its three messages. -/
theorem calculateCentroidPosition_error (ps : List Point) (e : String)
    (he : calculateCentroidPosition ps = .error e) :
    e = "Cannot calculate the mean of an empty cluster." ∨
    e = "Points must have at least one dimension." ∨
    e = "Point has incorrect dimensions." := by
  rw [calculateCentroidPosition] at he
  by_cases h0 : ps.length = 0
  · rw [if_pos h0] at he
    injection he with h2
    exact Or.inl h2.symm
  · rw [if_neg h0] at he
    by_cases h1 : (ps.headD []).length < 1
    · rw [if_pos h1] at he
      injection he with h2
      exact Or.inr (Or.inl h2.symm)
    · rw [if_neg h1] at he
      cases hadd : centroidAdd (ps.headD []).length ps
          (List.replicate (ps.headD []).length 0) with
      | error e2 =>
        rw [hadd] at he
        injection he with h2
        subst h2
        exact Or.inr (Or.inr (centroidAdd_error _ ps _ e2 hadd))
      | ok total =>
        rw [hadd] at he
        exact nomatch he

/-- Errors of the centroid update are among the mean's three messages. -/
theorem updateCentroids_error (data : List Point) :
    ∀ (cl : List Cluster) (s : RandState) (e : String),
      updateCentroids data cl s = .error e →
      e = "Cannot calculate the mean of an empty cluster." ∨
      e = "Points must have at least one dimension." ∨
      e = "Point has incorrect dimensions." := by
  intro cl
  induction cl with
  | nil =>
    intro s e he
    rw [updateCentroids] at he
    exact nomatch he
  | cons c rest ih =>
    intro s e he
    by_cases h : c.points.isEmpty
    · rw [updateCentroids_cons_empty data c rest s h] at he
      cases hrec : updateCentroids data rest ⟨s.g, s.idx + 1⟩ with
      | error e2 =>
        rw [hrec] at he
        injection he with h2
        subst h2
        exact ih _ e2 hrec
      | ok u =>
        rw [hrec] at he
        exact nomatch he
    · rw [updateCentroids_cons_nonempty data c rest s (by simpa using h)] at he
      cases hcp : calculateCentroidPosition c.points with
      | error e2 =>
        rw [hcp] at he
        injection he with h2
        subst h2
        exact calculateCentroidPosition_error c.points e2 hcp
      | ok m =>
        rw [hcp] at he
        cases hrec : updateCentroids data rest s with
        | error e2 =>
          rw [hrec] at he
          injection he with h2
          subst h2
          exact ih _ e2 hrec
        | ok u =>
          rw [hrec] at he
          exact nomatch he

/-- Errors of the loop body are among the mean's three messages. -/
theorem iterOnce_error (data : List Point) (tol : ℚ) (st : KMState) (e : String)
    (he : iterOnce data tol st = .error e) :
    e = "Cannot calculate the mean of an empty cluster." ∨
    e = "Points must have at least one dimension." ∨
    e = "Point has incorrect dimensions." := by
  simp only [iterOnce] at he
  cases hu : updateCentroids data (assignPointsToCentroidClusters data st.centroids)
      st.rand with
  | error e2 =>
    rw [hu] at he
    injection he with h2
    subst h2
    exact updateCentroids_error data _ st.rand e2 hu
  | ok u =>
    rw [hu] at he
    exact nomatch he

/-- Errors of the loop are among the mean's three messages. -/
theorem kMeansLoopF_error (data : List Point) (tol : ℚ) (maxIters : ℤ) :
    ∀ (fuel : ℕ) (st : KMState) (e : String),
      kMeansLoopF data tol maxIters fuel st = .error e →
      e = "Cannot calculate the mean of an empty cluster." ∨
      e = "Points must have at least one dimension." ∨
      e = "Point has incorrect dimensions." := by
  intro fuel
  induction fuel with
  | zero =>
    intro st e he
    exact nomatch he
  | succ fuel ih =>
    intro st e he
    by_cases h : st.hasConverged = false ∧ (st.iteration : ℤ) < maxIters
    · rw [kMeansLoopF, if_pos h] at he
      cases hit : iterOnce data tol st with
      | error e2 =>
        rw [hit] at he
        injection he with h2
        subst h2
        exact iterOnce_error data tol st e2 hit
      | ok st1 =>
        rw [hit] at he
        exact ih st1 e he
    · rw [kMeansLoopF, if_neg h] at he
      exact nomatch he

/-- C6: `kMeans` validates eagerly.  An empty dataset, a non-positive `k` or a
`k` exceeding the dataset size fail immediately with the first error message; a
non-uniform dimensionality fails with the second; both before seeding or
iterating (the random stream is untouched in the returned computation).  On
input passing validation, neither validation error is ever raised: any later
failure (the reachable zero-dimension throw of the centroid mean) carries a
different, non-validation message. -/
theorem kMeans_validation_eager (data : List Point) (k maxIters : ℤ) (tol : ℚ)
    (s : RandState) :
    ((data.length = 0 ∨ k ≤ 0 ∨ (data.length : ℤ) < k) →
      kMeans data k maxIters tol s = .error "Invalid number of clusters or empty dataset.") ∧
    (¬ (data.length = 0 ∨ k ≤ 0 ∨ (data.length : ℤ) < k) →
      data.all (fun p => p.length == (data.headD []).length) = false →
      kMeans data k maxIters tol s = .error "All data points must have the same dimensions.") ∧
    (¬ (data.length = 0 ∨ k ≤ 0 ∨ (data.length : ℤ) < k) →
      data.all (fun p => p.length == (data.headD []).length) = true →
      isValidationError (kMeans data k maxIters tol s) = false) := by
  refine ⟨?_, ?_, ?_⟩
  · intro h
    rw [kMeans, if_pos h]
  · intro h hdim
    rw [kMeans, if_neg h, hdim]
    simp
  · intro h hdim
    rw [kMeans, if_neg h, hdim]
    simp only [Bool.true_eq_false, if_false]
    cases hkpp : initializeCentroidsWithKMeansPlusPlus data k.toNat s with
    | none => rfl
    | some v =>
      cases v with
      | mk cs s1 =>
        show isValidationError
          (match kMeansLoopF data tol maxIters maxIters.toNat
              ⟨cs, [], false, 0, s1⟩ with
           | .error e => Except.error e
           | .ok st => Except.ok (some (st.clusters, st.rand))) = false
        cases hloop : kMeansLoopF data tol maxIters maxIters.toNat
            ⟨cs, [], false, 0, s1⟩ with
        | error e =>
          rcases kMeansLoopF_error data tol maxIters maxIters.toNat
              ⟨cs, [], false, 0, s1⟩ e hloop with h1 | h2 | h3
          · subst h1; rfl
          · subst h2; rfl
          · subst h3; rfl
        | ok st => rfl

/-- C6 witness: the three branches evaluated on concrete inputs (empty
dataset; mixed dimensionalities; a validated input, on which no validation
error is raised). -/
theorem kMeans_validation_eager_witness :
    kMeans [] 3 100 1 ⟨fun _ => 0, 0⟩ =
      .error "Invalid number of clusters or empty dataset." ∧
    kMeans [[1, 1], [2, 2, 3], [4, 4]] 2 100 1 ⟨fun _ => 0, 0⟩ =
      .error "All data points must have the same dimensions." ∧
    isValidationError (kMeans [[0], [1]] 1 100 1 ⟨fun _ => 0, 0⟩) = false :=
  ⟨(kMeans_validation_eager [] 3 100 1 ⟨fun _ => 0, 0⟩).1 (by simp),
   (kMeans_validation_eager [[1, 1], [2, 2, 3], [4, 4]] 2 100 1 ⟨fun _ => 0, 0⟩).2.1
     (by norm_num) (by decide),
   (kMeans_validation_eager [[0], [1]] 1 100 1 ⟨fun _ => 0, 0⟩).2.2
     (by norm_num) (by decide)⟩

/-- C10: on input passing validation, a non-positive `maxIterations` is
accepted without any error, the loop body never runs, and `kMeans` returns the
initial empty cluster list (length 0, not `k`). -/
theorem kMeans_nonpositive_maxIterations (data : List Point) (k maxIters : ℤ) (tol : ℚ)
    (s : RandState) (hdata : data ≠ []) (hk1 : 1 ≤ k) (hk2 : k ≤ (data.length : ℤ))
    (hdim : data.all (fun p => p.length == (data.headD []).length) = true)
    (hmax : maxIters ≤ 0) (hs : validRand s) :
    ∃ s2, kMeans data k maxIters tol s = .ok (some ([], s2)) := by
  obtain ⟨cs0, s1, hkpp, hlen0, hg1, hkm⟩ :=
    kMeans_eq_loop data k maxIters tol s hdata hk1 hk2 hdim hs
  have hzero : maxIters.toNat = 0 := by omega
  rw [hzero] at hkm
  exact ⟨s1, hkm⟩

/-- C10 witness: `maxIterations = 0` on a valid input returns the empty cluster
list without an error. -/
theorem kMeans_nonpositive_maxIterations_witness :
    ∃ s2, kMeans [[0], [1]] 1 0 1 ⟨fun _ => 0, 0⟩ = .ok (some ([], s2)) :=
  kMeans_nonpositive_maxIterations [[0], [1]] 1 0 1 ⟨fun _ => 0, 0⟩ (by simp) (by omega)
    (by simp) (by decide) (by omega) (fun n => by norm_num)

/-- C3 (amended: the dataset's points must share one positive dimension, so
that centroid updates cannot throw): started on an unconverged state below the
iteration cap (as `kMeans` starts it) with enough fuel, the loop runs to
completion and halts exactly when the convergence flag became true or the
counter reached `maxIterations`; the final clusters are the assignment under
the pre-update centroids of the last executed iteration (each returned cluster
carrying that pre-update centroid), no re-assignment under the final
post-update centroids happens, and the convergence flag is true iff for every
centroid index the pre-to-post squared movement is below `tolerance²` with a
positive tolerance — i.e. `euclideanDistance < tolerance` pointwise.  Without
the positive-dimension hypothesis the loop can abort mid-body with the
zero-dimension throw (see the counterexample). -/
theorem kMeansLoop_stop_and_output (data : List Point) (tol : ℚ) (maxIters : ℤ)
    (fuel : ℕ) (st : KMState) (d : ℕ)
    (hdim : ∀ p ∈ data, p.length = d) (hd1 : 1 ≤ d)
    (hconv : st.hasConverged = false)
    (hiter : (st.iteration : ℤ) < maxIters)
    (hfuel : maxIters ≤ (st.iteration : ℤ) + fuel) :
    ∃ stF, kMeansLoopF data tol maxIters fuel st = .ok stF ∧
      (stF.hasConverged = true ∨ (stF.iteration : ℤ) = maxIters) ∧
      ∃ cPre,
        stF.clusters = assignPointsToCentroidClusters data cPre ∧
        stF.clusters.map (fun cl => cl.centroid) = cPre ∧
        stF.hasConverged = convergenceTest cPre stF.centroids tol ∧
        (stF.hasConverged = true ↔
          ∀ i, i < cPre.length → 0 < tol ∧
            euclideanDistanceSq (cPre.getD i []) (stF.centroids.getD i []) < tol * tol) := by
  obtain ⟨stF, hstF⟩ := kMeansLoopF_ok data tol maxIters d hdim hd1 fuel st
  refine ⟨stF, hstF, ?_, ?_⟩
  · exact kMeansLoopF_stop data tol maxIters fuel st stF hstF (by omega) hfuel
  · obtain ⟨f, hf⟩ : ∃ f, fuel = f + 1 := ⟨fuel - 1, by omega⟩
    subst hf
    have hguard : st.hasConverged = false ∧ (st.iteration : ℤ) < maxIters := ⟨hconv, hiter⟩
    rw [kMeansLoopF, if_pos hguard] at hstF
    obtain ⟨st1, hit⟩ := iterOnce_ok data tol d hdim hd1 st
    rw [hit] at hstF
    obtain ⟨hlen1, -⟩ := iterOnce_ok_facts data tol st st1 hit
    obtain ⟨u, hu, hc1, hcl1, hcv1, -, -⟩ := iterOnce_ok_elim data tol st st1 hit
    obtain ⟨hlenF, -, hprov⟩ := kMeansLoopF_spec data tol maxIters f st1 stF hstF
    rcases hprov with heq | ⟨cPre, hlenPre, hcl, hcv⟩
    · subst heq
      refine ⟨st.centroids, hcl1, ?_, ?_, ?_⟩
      · rw [hcl1, assign_map_centroid]
      · rw [hcv1, hc1]
      · rw [hcv1, hc1]
        exact convergenceTest_eq_true_iff st.centroids u.1 tol (by rw [← hc1, hlen1])
    · refine ⟨cPre, hcl, ?_, hcv, ?_⟩
      · rw [hcl, assign_map_centroid]
      · rw [hcv]
        apply convergenceTest_eq_true_iff cPre stF.centroids tol
        rw [hlenPre, hlenF]

/-- C3 witness: the stop-and-output characterisation on a concrete state. -/
theorem kMeansLoop_stop_and_output_witness :
    ∃ stF, kMeansLoopF [[0], [1]] 1 1 1 ⟨[[0]], [], false, 0, ⟨fun _ => 0, 0⟩⟩ = .ok stF ∧
      (stF.hasConverged = true ∨ (stF.iteration : ℤ) = 1) ∧
      ∃ cPre,
        stF.clusters = assignPointsToCentroidClusters [[0], [1]] cPre ∧
        stF.clusters.map (fun cl => cl.centroid) = cPre ∧
        stF.hasConverged = convergenceTest cPre stF.centroids 1 ∧
        (stF.hasConverged = true ↔
          ∀ i, i < cPre.length → (0 : ℚ) < 1 ∧
            euclideanDistanceSq (cPre.getD i []) (stF.centroids.getD i []) < 1 * 1) :=
  kMeansLoop_stop_and_output [[0], [1]] 1 1 1 ⟨[[0]], [], false, 0, ⟨fun _ => 0, 0⟩⟩ 1
    (by decide) (by omega) rfl (by norm_num) (by norm_num)

/-- C3 counterexample: at the state `kMeans` reaches on the validated
zero-dimensional dataset `[[], []]`, the loop does not halt by convergence or
by the iteration cap with an assignment as output — it aborts mid-body with
the zero-dimension throw of the centroid mean. -/
theorem kMeansLoop_zero_dimension_counterexample :
    kMeansLoopF [[], []] 1 1 1 ⟨[[]], [], false, 0, ⟨fun _ => 0, 0⟩⟩ =
      .error "Points must have at least one dimension." := rfl

/-! ### Partition completeness (claim C2) -/

/-- Counting inside one bucket of a key-indexed partition. -/
theorem count_filter_key {α : Type _} [DecidableEq α] (key : α → ℕ) (i : ℕ) (a : α) :
    ∀ l : List α,
      List.count a (l.filter (fun x => key x == i)) =
        if key a = i then List.count a l else 0 := by
  intro l
  induction l with
  | nil => simp
  | cons b l ih =>
    by_cases hb : key b = i
    · rw [List.filter_cons_of_pos (by simpa using hb)]
      by_cases hab : b = a
      · subst hab
        simp [List.count_cons_self, ih, hb]
      · rw [List.count_cons_of_ne (fun h => hab h.symm),
          List.count_cons_of_ne (fun h => hab h.symm), ih]
    · rw [List.filter_cons_of_neg (by simpa using hb)]
      rw [ih]
      by_cases ha : key a = i
      · have hab : a ≠ b := fun h => hb (by rw [← h]; exact ha)
        rw [if_pos ha, if_pos ha, List.count_cons_of_ne hab]
      · simp [ha]

/-- Summing a point mass over `range n`. -/
theorem sum_if_range (n m c : ℕ) :
    (((List.range n).map (fun i => if m = i then c else 0)).sum) =
      if m < n then c else 0 := by
  induction n with
  | zero => simp
  | succ n ih =>
    rw [List.range_succ, List.map_append, List.sum_append, ih]
    by_cases h2 : m = n
    · subst h2
      simp [Nat.lt_irrefl, Nat.lt_succ_self]
    · by_cases h : m < n
      · simp [h, h2, Nat.lt_succ_of_lt h]
      · have h3 : ¬ m < n + 1 := by omega
        simp [h, h2, h3]

/-- Flattening the key-indexed buckets of a list leaves every count unchanged,
provided all keys are in range. -/
theorem join_buckets_count {α : Type _} [DecidableEq α] (data : List α) (n : ℕ)
    (key : α → ℕ) (h : ∀ a ∈ data, key a < n) (a : α) :
    List.count a (((List.range n).map (fun i => data.filter (fun x => key x == i))).flatten) =
      List.count a data := by
  rw [List.count_flatten, List.map_map]
  have hcong : ((List.range n).map
      ((fun l => List.count a l) ∘ (fun i => data.filter (fun x => key x == i)))) =
      (List.range n).map (fun i => if key a = i then List.count a data else 0) :=
    List.map_congr_left (fun i _ => count_filter_key key i a data)
  rw [hcong, sum_if_range]
  by_cases ha : a ∈ data
  · rw [if_pos (h a ha)]
  · have hz : List.count a data = 0 := List.count_eq_zero.mpr ha
    simp [hz]

/-- The key-indexed buckets of a list are a permutation of the list. -/
theorem join_buckets_perm {α : Type _} [DecidableEq α] (data : List α) (n : ℕ)
    (key : α → ℕ) (h : ∀ a ∈ data, key a < n) :
    (((List.range n).map (fun i => data.filter (fun x => key x == i))).flatten).Perm data :=
  List.perm_iff_count.mpr (fun a => join_buckets_count data n key h a)

/-- The points of the assignment's clusters, flattened, are a permutation of
the dataset: every point lands in exactly one cluster. -/
theorem assign_flatten_perm (data cs : List Point) (h : cs ≠ []) :
    (((assignPointsToCentroidClusters data cs).map (fun cl => cl.points)).flatten).Perm data := by
  have hmap : (assignPointsToCentroidClusters data cs).map (fun cl => cl.points) =
      (List.range cs.length).map (fun i => data.filter (fun p => nearestCentroidIndex p cs == i)) := by
    rw [assignPointsToCentroidClusters, List.map_map]
    rfl
  rw [hmap]
  exact join_buckets_perm data cs.length (fun p => nearestCentroidIndex p cs)
    (fun p _ => (nearest_spec p cs h).1)

/-- C2 (amended: the points must have at least one dimension): on every valid
input (non-empty dataset, `1 ≤ k ≤ |data|`, uniform positive dimensionality,
`maxIterations ≥ 1`) and valid random source, `kMeans` succeeds and the points
of the returned clusters, taken together, are a permutation of the input
dataset (the same multiset: every input point belongs to exactly one cluster).
Without the positive-dimension hypothesis the source throws before returning
any clusters (see the counterexample). -/
theorem kMeans_partition_complete (data : List Point) (k maxIters : ℤ) (tol : ℚ)
    (s : RandState) (hdata : data ≠ []) (hk1 : 1 ≤ k) (hk2 : k ≤ (data.length : ℤ))
    (hdim : data.all (fun p => p.length == (data.headD []).length) = true)
    (hd1 : 1 ≤ (data.headD []).length)
    (hmax : 1 ≤ maxIters) (hs : validRand s) :
    ∃ clusters s2, kMeans data k maxIters tol s = .ok (some (clusters, s2)) ∧
      ((clusters.map (fun cl => cl.points)).flatten).Perm data := by
  obtain ⟨cs0, s1, hkpp, hlen0, hg1, hkm⟩ :=
    kMeans_eq_loop data k maxIters tol s hdata hk1 hk2 hdim hs
  have hdim2 := dims_of_all_check data hdim
  obtain ⟨stF, hstF⟩ := kMeansLoopF_ok data tol maxIters (data.headD []).length hdim2 hd1
    maxIters.toNat ⟨cs0, [], false, 0, s1⟩
  rw [hstF] at hkm
  refine ⟨stF.clusters, stF.rand, hkm, ?_⟩
  obtain ⟨f, hf⟩ : ∃ f, maxIters.toNat = f + 1 := ⟨maxIters.toNat - 1, by omega⟩
  rw [hf] at hstF
  have hguard : (⟨cs0, [], false, 0, s1⟩ : KMState).hasConverged = false ∧
      ((⟨cs0, [], false, 0, s1⟩ : KMState).iteration : ℤ) < maxIters :=
    ⟨rfl, by simp; omega⟩
  rw [kMeansLoopF, if_pos hguard] at hstF
  obtain ⟨st1, hit⟩ := iterOnce_ok data tol (data.headD []).length hdim2 hd1
    ⟨cs0, [], false, 0, s1⟩
  rw [hit] at hstF
  obtain ⟨hlen1, -⟩ := iterOnce_ok_facts data tol _ st1 hit
  obtain ⟨u, -, -, hcl1, -, -, -⟩ := iterOnce_ok_elim data tol _ st1 hit
  obtain ⟨hlenF, -, hprov⟩ := kMeansLoopF_spec data tol maxIters f st1 stF hstF
  have hcs0 : cs0 ≠ [] := by
    intro hnil
    rw [hnil] at hlen0
    simp at hlen0
    omega
  rcases hprov with heq | ⟨cPre, hlenPre, hcl, -⟩
  · subst heq
    rw [hcl1]
    exact assign_flatten_perm data cs0 hcs0
  · rw [hcl]
    have hPreNe : cPre ≠ [] := by
      intro hnil
      rw [hnil] at hlenPre
      simp only at hlen1
      simp at hlenPre
      omega
    exact assign_flatten_perm data cPre hPreNe

/-- C2 witness: a concrete valid run whose clusters partition the dataset. -/
theorem kMeans_partition_complete_witness :
    ∃ clusters s2, kMeans [[0], [1]] 1 1 1 ⟨fun _ => 0, 0⟩ = .ok (some (clusters, s2)) ∧
      ((clusters.map (fun cl => cl.points)).flatten).Perm [[0], [1]] :=
  kMeans_partition_complete [[0], [1]] 1 1 1 ⟨fun _ => 0, 0⟩ (by simp) (by omega)
    (by simp) (by decide) (by decide) (by omega) (fun n => by norm_num)

/-- C2 counterexample: on the valid zero-dimensional dataset `[[], [], []]`
(three points sharing dimensionality zero, `k = 1`), `kMeans` throws during
the first centroid update, so no clusters — and hence no partition of the
dataset — are ever returned. -/
theorem kMeans_partition_zero_dimension_counterexample :
    kMeans [[], [], []] 1 1 1 ⟨fun _ => 0, 0⟩ =
      .error "Points must have at least one dimension." := rfl

/-! ### The multi-run selector (claim C5) -/

/-- Validity of a random stream depends only on the stream. -/
theorem validRand_of_g_eq {s s1 : RandState} (h : s1.g = s.g) (hs : validRand s) :
    validRand s1 := by
  intro n
  rw [h]
  exact hs n

/-- On valid positive-dimension input and source, each `kMeans` call inside
the multi-run wrapper succeeds and leaves the random stream unchanged. -/
theorem kMeans_ok_valid (data : List Point) (k maxIters : ℤ) (tol : ℚ) (s : RandState)
    (hdata : data ≠ []) (hk1 : 1 ≤ k) (hk2 : k ≤ (data.length : ℤ))
    (hdim : data.all (fun p => p.length == (data.headD []).length) = true)
    (hd1 : 1 ≤ (data.headD []).length)
    (hs : validRand s) :
    ∃ cl s2, kMeans data k maxIters tol s = .ok (some (cl, s2)) ∧ s2.g = s.g := by
  obtain ⟨cs0, s1, hkpp, hlen0, hg1, hkm⟩ :=
    kMeans_eq_loop data k maxIters tol s hdata hk1 hk2 hdim hs
  obtain ⟨stF, hstF⟩ := kMeansLoopF_ok data tol maxIters (data.headD []).length
    (dims_of_all_check data hdim) hd1 maxIters.toNat ⟨cs0, [], false, 0, s1⟩
  rw [hstF] at hkm
  refine ⟨stF.clusters, stF.rand, hkm, ?_⟩
  obtain ⟨-, hg, -⟩ := kMeansLoopF_spec data tol maxIters maxIters.toNat
    ⟨cs0, [], false, 0, s1⟩ stF hstF
  rw [hg]
  exact hg1

/-- On valid input and source, the run sequence has exactly `n` entries and
each entry's final stream is still valid. -/
theorem kMeansRuns_length (data : List Point) (k maxIters : ℤ) (tol : ℚ)
    (hdata : data ≠ []) (hk1 : 1 ≤ k) (hk2 : k ≤ (data.length : ℤ))
    (hdim : data.all (fun p => p.length == (data.headD []).length) = true)
    (hd1 : 1 ≤ (data.headD []).length) :
    ∀ (n : ℕ) (s : RandState), validRand s →
      (kMeansRuns data k maxIters tol n s).length = n := by
  intro n
  induction n with
  | zero => intro s _; rfl
  | succ n ih =>
    intro s hs
    obtain ⟨cl, s2, hkm, hg⟩ := kMeans_ok_valid data k maxIters tol s hdata hk1 hk2 hdim hd1 hs
    rw [kMeansRuns, hkm]
    simp only [List.length_cons]
    rw [ih s2 (validRand_of_g_eq hg hs)]

/-- On valid input and source, the wrapper's interleaved loop computes exactly
the pure best-inertia fold over the run sequence. -/
theorem runKMeansLoop_eq_foldBest (data : List Point) (k maxIters : ℤ) (tol : ℚ)
    (hdata : data ≠ []) (hk1 : 1 ≤ k) (hk2 : k ≤ (data.length : ℤ))
    (hdim : data.all (fun p => p.length == (data.headD []).length) = true)
    (hd1 : 1 ≤ (data.headD []).length) :
    ∀ (n : ℕ) (s : RandState), validRand s → ∀ (bI : Option ℚ) (bC : List Cluster),
      ∃ s2, runKMeansLoop data k maxIters tol n bI bC s =
        .ok (some (foldBest bI bC ((kMeansRuns data k maxIters tol n s).map Prod.fst), s2)) := by
  intro n
  induction n with
  | zero =>
    intro s _ bI bC
    exact ⟨s, rfl⟩
  | succ n ih =>
    intro s hs bI bC
    obtain ⟨cl, s1, hkm, hg⟩ := kMeans_ok_valid data k maxIters tol s hdata hk1 hk2 hdim hd1 hs
    have hs1 : validRand s1 := validRand_of_g_eq hg hs
    rw [runKMeansLoop, hkm, kMeansRuns, hkm]
    simp only [List.map_cons]
    by_cases hbc : bestCheck bI (calculateInertia cl) = true
    · rw [if_pos hbc]
      obtain ⟨s2, hrec⟩ := ih s1 hs1 (some (calculateInertia cl)) cl
      rw [hrec]
      refine ⟨s2, ?_⟩
      rw [foldBest, if_pos hbc]
    · rw [if_neg hbc]
      obtain ⟨s2, hrec⟩ := ih s1 hs1 bI bC
      rw [hrec]
      refine ⟨s2, ?_⟩
      rw [foldBest, if_neg hbc]

/-- First-strict-minimum characterisation of the best-inertia fold, starting
from an established baseline. -/
theorem foldBest_some_spec :
    ∀ (l : List (List Cluster)) (bC : List Cluster),
      (foldBest (some (calculateInertia bC)) bC l = bC ∧
        ∀ x ∈ l, calculateInertia bC ≤ calculateInertia x) ∨
      (∃ m, m < l.length ∧
        foldBest (some (calculateInertia bC)) bC l = l.getD m [] ∧
        calculateInertia (l.getD m []) < calculateInertia bC ∧
        (∀ j, j < m →
          calculateInertia (l.getD m []) < calculateInertia (l.getD j [])) ∧
        (∀ j, m ≤ j → j < l.length →
          calculateInertia (l.getD m []) ≤ calculateInertia (l.getD j []))) := by
  intro l
  induction l with
  | nil => intro bC; exact Or.inl ⟨rfl, by simp⟩
  | cons x rest ih =>
    intro bC
    by_cases h : calculateInertia x < calculateInertia bC
    · have hstep : foldBest (some (calculateInertia bC)) bC (x :: rest) =
          foldBest (some (calculateInertia x)) x rest := by
        rw [foldBest, if_pos (by simp [bestCheck, h])]
      rcases ih x with ⟨hr, hall⟩ | ⟨m, hm, hr, hlt, hfirst, hmin⟩
      · refine Or.inr ⟨0, by simp, ?_, by simpa using h, by omega, ?_⟩
        · rw [hstep, hr]; simp
        · intro j _ hj
          cases j with
          | zero => simp
          | succ j =>
            simp only [List.getD_cons_succ, List.getD_cons_zero]
            exact hall _ (getD_mem_of_lt rest [] (by simpa using hj))
      · refine Or.inr ⟨m + 1, by simpa using hm, ?_, ?_, ?_, ?_⟩
        · rw [hstep, hr]; simp
        · simp only [List.getD_cons_succ]
          exact lt_trans hlt h
        · intro j hj
          cases j with
          | zero =>
            simp only [List.getD_cons_succ, List.getD_cons_zero]
            exact hlt
          | succ j =>
            simp only [List.getD_cons_succ]
            exact hfirst j (by omega)
        · intro j hmj hj
          cases j with
          | zero => omega
          | succ j =>
            simp only [List.getD_cons_succ]
            exact hmin j (by omega) (by simpa using hj)
    · have hstep : foldBest (some (calculateInertia bC)) bC (x :: rest) =
          foldBest (some (calculateInertia bC)) bC rest := by
        rw [foldBest, if_neg (by simp [bestCheck, h])]
      rcases ih bC with ⟨hr, hall⟩ | ⟨m, hm, hr, hlt, hfirst, hmin⟩
      · refine Or.inl ⟨by rw [hstep, hr], ?_⟩
        intro q hq
        rcases List.mem_cons.mp hq with rfl | hq
        · exact le_of_not_lt h
        · exact hall q hq
      · refine Or.inr ⟨m + 1, by simpa using hm, ?_, ?_, ?_, ?_⟩
        · rw [hstep, hr]; simp
        · simp only [List.getD_cons_succ]
          exact hlt
        · intro j hj
          cases j with
          | zero =>
            simp only [List.getD_cons_succ, List.getD_cons_zero]
            exact lt_of_lt_of_le hlt (le_of_not_lt h)
          | succ j =>
            simp only [List.getD_cons_succ]
            exact hfirst j (by omega)
        · intro j hmj hj
          cases j with
          | zero => omega
          | succ j =>
            simp only [List.getD_cons_succ]
            exact hmin j (by omega) (by simpa using hj)

/-- First-strict-minimum characterisation of the best-inertia fold from the
`Infinity` baseline: the empty run list yields the empty result, otherwise the
result is the earliest run of minimal inertia. -/
theorem foldBest_none_spec (l : List (List Cluster)) :
    (l = [] ∧ foldBest none [] l = []) ∨
    (∃ m, m < l.length ∧ foldBest none [] l = l.getD m [] ∧
      (∀ j, j < l.length →
        calculateInertia (l.getD m []) ≤ calculateInertia (l.getD j [])) ∧
      (∀ j, j < m →
        calculateInertia (l.getD m []) < calculateInertia (l.getD j []))) := by
  cases l with
  | nil => exact Or.inl ⟨rfl, rfl⟩
  | cons x rest =>
    have hstep : foldBest none [] (x :: rest) =
        foldBest (some (calculateInertia x)) x rest := by
      rw [foldBest]
      rfl
    rcases foldBest_some_spec rest x with ⟨hr, hall⟩ | ⟨m, hm, hr, hlt, hfirst, hmin⟩
    · refine Or.inr ⟨0, by simp, by rw [hstep, hr]; simp, ?_, by omega⟩
      intro j hj
      cases j with
      | zero => simp
      | succ j =>
        simp only [List.getD_cons_succ, List.getD_cons_zero]
        exact hall _ (getD_mem_of_lt rest [] (by simpa using hj))
    · refine Or.inr ⟨m + 1, by simpa using hm, by rw [hstep, hr]; simp, ?_, ?_⟩
      · intro j hj
        cases j with
        | zero =>
          simp only [List.getD_cons_succ, List.getD_cons_zero]
          exact le_of_lt hlt
        | succ j =>
          simp only [List.getD_cons_succ]
          by_cases hjm : j < m
          · exact le_of_lt (hfirst j hjm)
          · exact hmin j (by omega) (by simpa using hj)
      · intro j hj
        cases j with
        | zero =>
          simp only [List.getD_cons_succ, List.getD_cons_zero]
          exact hlt
        | succ j =>
          simp only [List.getD_cons_succ]
          exact hfirst j (by omega)

/-- C5 (amended: the points must have at least one dimension): on valid
positive-dimension input and source, `runKMeansWithOptimalInertia` executes
`numRuns` runs of `kMeans` (zero when `numRuns ≤ 0`, returning the empty
default) and returns the result of the earliest run attaining the strictly
lowest inertia: its inertia is `≤` every run's inertia and `<` that of every
earlier run (the first run is the baseline and ties keep the earlier run).
Without the positive-dimension hypothesis the first inner run throws and the
error propagates out of the wrapper (see the counterexample). -/
theorem runKMeans_selects_lowest_inertia (data : List Point) (k maxIters : ℤ) (tol : ℚ)
    (numRuns : ℤ) (s : RandState) (hdata : data ≠ []) (hk1 : 1 ≤ k)
    (hk2 : k ≤ (data.length : ℤ))
    (hdim : data.all (fun p => p.length == (data.headD []).length) = true)
    (hd1 : 1 ≤ (data.headD []).length)
    (hs : validRand s) :
    ∃ best s2, runKMeansWithOptimalInertia data k maxIters tol numRuns s =
        .ok (some (best, s2)) ∧
      (kMeansRuns data k maxIters tol numRuns.toNat s).length = numRuns.toNat ∧
      ((numRuns ≤ 0 → best = []) ∧
       (0 < numRuns →
        ∃ m, m < (kMeansRuns data k maxIters tol numRuns.toNat s).length ∧
          best = ((kMeansRuns data k maxIters tol numRuns.toNat s).map Prod.fst).getD m [] ∧
          (∀ j, j < (kMeansRuns data k maxIters tol numRuns.toNat s).length →
            calculateInertia best ≤ calculateInertia
              (((kMeansRuns data k maxIters tol numRuns.toNat s).map Prod.fst).getD j [])) ∧
          (∀ j, j < m →
            calculateInertia best < calculateInertia
              (((kMeansRuns data k maxIters tol numRuns.toNat s).map Prod.fst).getD j [])))) := by
  obtain ⟨s2, hloop⟩ := runKMeansLoop_eq_foldBest data k maxIters tol hdata hk1 hk2 hdim hd1
    numRuns.toNat s hs none []
  have hlenruns : (kMeansRuns data k maxIters tol numRuns.toNat s).length = numRuns.toNat :=
    kMeansRuns_length data k maxIters tol hdata hk1 hk2 hdim hd1 numRuns.toNat s hs
  refine ⟨_, s2, hloop, hlenruns, ?_, ?_⟩
  · intro hnr
    have hzero : numRuns.toNat = 0 := by omega
    have hnil : kMeansRuns data k maxIters tol numRuns.toNat s = [] := by
      rw [hzero]
      rfl
    rw [hnil]
    rfl
  · intro hnr
    rcases foldBest_none_spec ((kMeansRuns data k maxIters tol numRuns.toNat s).map Prod.fst)
      with ⟨hnil, -⟩ | ⟨m, hm, hr, hmin, hfirst⟩
    · exfalso
      have : (kMeansRuns data k maxIters tol numRuns.toNat s).length = 0 := by
        have := congrArg List.length hnil
        simpa using this
      omega
    · refine ⟨m, ?_, hr, ?_, ?_⟩
      · simpa using hm
      · intro j hj
        rw [hr]
        exact hmin j (by simpa using hj)
      · intro j hj
        rw [hr]
        exact hfirst j hj

/-- C5 witness: two runs on a concrete valid configuration. -/
theorem runKMeans_selects_lowest_inertia_witness :
    ∃ best s2, runKMeansWithOptimalInertia [[0], [1]] 1 1 1 2 ⟨fun _ => 0, 0⟩ =
        .ok (some (best, s2)) ∧
      (kMeansRuns [[0], [1]] 1 1 1 2 ⟨fun _ => 0, 0⟩).length = (2 : ℤ).toNat ∧
      (((2 : ℤ) ≤ 0 → best = []) ∧
       ((0 : ℤ) < 2 →
        ∃ m, m < (kMeansRuns [[0], [1]] 1 1 1 2 ⟨fun _ => 0, 0⟩).length ∧
          best = ((kMeansRuns [[0], [1]] 1 1 1 2 ⟨fun _ => 0, 0⟩).map Prod.fst).getD m [] ∧
          (∀ j, j < (kMeansRuns [[0], [1]] 1 1 1 2 ⟨fun _ => 0, 0⟩).length →
            calculateInertia best ≤ calculateInertia
              (((kMeansRuns [[0], [1]] 1 1 1 2 ⟨fun _ => 0, 0⟩).map Prod.fst).getD j [])) ∧
          (∀ j, j < m →
            calculateInertia best < calculateInertia
              (((kMeansRuns [[0], [1]] 1 1 1 2 ⟨fun _ => 0, 0⟩).map Prod.fst).getD j [])))) :=
  runKMeans_selects_lowest_inertia [[0], [1]] 1 1 1 2 ⟨fun _ => 0, 0⟩ (by simp) (by omega)
    (by simp) (by decide) (by decide) (fun n => by norm_num)

/-- C5 counterexample: on the valid zero-dimensional dataset `[[], []]` with
`numRuns = 1`, the first inner `kMeans` run throws the zero-dimension error
and it propagates out of `runKMeansWithOptimalInertia`, so no lowest-inertia
clusters are returned. -/
theorem runKMeans_zero_dimension_counterexample :
    runKMeansWithOptimalInertia [[], []] 1 1 1 1 ⟨fun _ => 0, 0⟩ =
      .error "Points must have at least one dimension." := rfl

/-! ### Inertia never increases across consecutive iterations (claim C9) -/

/-- A left fold accumulating additions is the sum of the mapped list. -/
theorem foldl_add_eq {α : Type _} (f : α → ℚ) :
    ∀ (l : List α) (a : ℚ), l.foldl (fun acc x => acc + f x) a = a + (l.map f).sum := by
  intro l
  induction l with
  | nil => intro a; simp
  | cons x rest ih =>
    intro a
    rw [List.foldl_cons, ih, List.map_cons, List.sum_cons]
    ring

/-- The inertia is the double sum of squared point-to-centroid distances. -/
theorem calculateInertia_eq (cls : List Cluster) :
    calculateInertia cls =
      (cls.map (fun cl =>
        (cl.points.map (fun p => euclideanDistanceSq p cl.centroid)).sum)).sum := by
  rw [calculateInertia, foldl_add_eq (fun cl =>
    cl.points.foldl (fun sum p => sum + euclideanDistanceSq p cl.centroid) 0) cls 0]
  rw [zero_add]
  congr 1
  apply List.map_congr_left
  intro cl _
  rw [foldl_add_eq (fun p => euclideanDistanceSq p cl.centroid) cl.points 0, zero_add]

/-- Summing a function bucket by bucket over a key-indexed partition equals
summing it over the list. -/
theorem sum_over_buckets {α : Type _} [DecidableEq α] (data : List α) (n : ℕ)
    (key : α → ℕ) (h : ∀ a ∈ data, key a < n) (G : α → ℚ) :
    ((List.range n).map (fun i => ((data.filter (fun x => key x == i)).map G).sum)).sum =
      (data.map G).sum := by
  have hcomp : (List.range n).map (fun i => ((data.filter (fun x => key x == i)).map G).sum) =
      (((List.range n).map (fun i => data.filter (fun x => key x == i))).map
        (fun l => (l.map G).sum)) := by
    rw [List.map_map]
    rfl
  rw [hcomp]
  have hcomp2 : (((List.range n).map (fun i => data.filter (fun x => key x == i))).map
      (fun l => (l.map G).sum)) =
      ((((List.range n).map (fun i => data.filter (fun x => key x == i))).map
        (fun l => l.map G)).map List.sum) := by
    simp only [List.map_map]
    rfl
  rw [hcomp2, ← List.sum_flatten, ← List.map_flatten]
  exact List.Perm.sum_eq (List.Perm.map G (join_buckets_perm data n key h))

/-- The inertia of an assignment, bucket by bucket. -/
theorem inertia_assign_buckets (data cs : List Point) :
    calculateInertia (assignPointsToCentroidClusters data cs) =
      ((List.range cs.length).map (fun i =>
        ((data.filter (fun p => nearestCentroidIndex p cs == i)).map
          (fun p => euclideanDistanceSq p (cs.getD i []))).sum)).sum := by
  rw [calculateInertia_eq, assignPointsToCentroidClusters, List.map_map]
  rfl

/-- The inertia of an assignment is the sum, over the dataset, of each point's
squared distance to its nearest centroid. -/
theorem inertia_assign (data cs : List Point) (h : cs ≠ []) :
    calculateInertia (assignPointsToCentroidClusters data cs) =
      (data.map (fun p =>
        euclideanDistanceSq p (cs.getD (nearestCentroidIndex p cs) []))).sum := by
  rw [inertia_assign_buckets]
  have hcong : ∀ i ∈ List.range cs.length,
      ((data.filter (fun p => nearestCentroidIndex p cs == i)).map
        (fun p => euclideanDistanceSq p (cs.getD i []))).sum =
      ((data.filter (fun p => nearestCentroidIndex p cs == i)).map
        (fun p => euclideanDistanceSq p (cs.getD (nearestCentroidIndex p cs) []))).sum := by
    intro i _
    congr 1
    apply List.map_congr_left
    intro p hp
    have : nearestCentroidIndex p cs = i := by
      have := (List.mem_filter.mp hp).2
      simpa using this
    rw [this]
  rw [List.map_congr_left hcong]
  exact sum_over_buckets data cs.length (fun p => nearestCentroidIndex p cs)
    (fun p _ => (nearest_spec p cs h).1) _

/-- The summation fold of `calculateCentroidPosition`, coordinate by
coordinate. -/
theorem centroid_fold_spec (d : ℕ) :
    ∀ (ps : List Point) (init : Point), init.length = d → (∀ p ∈ ps, p.length = d) →
      (ps.foldl (fun mean p => List.zipWith (· + ·) mean p) init).length = d ∧
      ∀ j, j < d →
        (ps.foldl (fun mean p => List.zipWith (· + ·) mean p) init).getD j 0 =
          init.getD j 0 + (ps.map (fun p => p.getD j 0)).sum := by
  intro ps
  induction ps with
  | nil =>
    intro init hinit _
    exact ⟨hinit, fun j _ => by simp⟩
  | cons p rest ih =>
    intro init hinit hd
    have hplen : p.length = d := hd p (List.mem_cons_self p rest)
    have hzlen : (List.zipWith (· + ·) init p).length = d := by
      rw [List.length_zipWith, hinit, hplen]
      exact min_self d
    obtain ⟨hlen, hcoord⟩ := ih (List.zipWith (· + ·) init p) hzlen
      (fun q hq => hd q (List.mem_cons_of_mem p hq))
    refine ⟨hlen, ?_⟩
    intro j hj
    rw [List.foldl_cons, hcoord j hj]
    have hz : (List.zipWith (· + ·) init p).getD j 0 = init.getD j 0 + p.getD j 0 := by
      rw [List.getD_eq_getElem _ _ (by rw [hzlen]; exact hj),
        List.getD_eq_getElem _ _ (by rw [hinit]; exact hj),
        List.getD_eq_getElem _ _ (by rw [hplen]; exact hj),
        List.getElem_zipWith]
    rw [hz, List.map_cons, List.sum_cons]
    ring

/-- The centroid mean of a non-empty uniform-dimension point list has the
same dimension, and each coordinate is the arithmetic mean of that
coordinate. -/
theorem centroidMeanValue_spec (d : ℕ) (ps : List Point) (hne : ps ≠ [])
    (hd : ∀ p ∈ ps, p.length = d) :
    (centroidMeanValue ps).length = d ∧
    ∀ j, j < d → (centroidMeanValue ps).getD j 0 =
      (ps.map (fun p => p.getD j 0)).sum / (ps.length : ℚ) := by
  have hhead : (ps.headD []).length = d := by
    cases ps with
    | nil => exact absurd rfl hne
    | cons q rest => exact hd q (List.mem_cons_self q rest)
  obtain ⟨hlen, hcoord⟩ := centroid_fold_spec d ps (List.replicate (ps.headD []).length 0)
    (by rw [List.length_replicate]; exact hhead) hd
  constructor
  · rw [centroidMeanValue, List.length_map]
    exact hlen
  · intro j hj
    have hc := hcoord j hj
    rw [List.getD_eq_getElem _ _ (by rw [hlen]; exact hj)] at hc
    rw [centroidMeanValue]
    rw [List.getD_eq_getElem _ _ (by rw [List.length_map]; rw [hlen]; exact hj)]
    rw [List.getElem_map, hc]
    have hrep : (List.replicate (ps.headD []).length (0 : ℚ)).getD j 0 = 0 := by
      rw [List.getD_eq_getElem _ _ (by rw [List.length_replicate]; rw [hhead]; exact hj)]
      rw [List.getElem_replicate]
    rw [hrep, zero_add]

/-- Squared distance of two length-`d` points, coordinate by coordinate. -/
theorem euclideanDistanceSq_eq_range (d : ℕ) :
    ∀ (p q : Point), p.length = d → q.length = d →
      euclideanDistanceSq p q = ∑ j ∈ Finset.range d, (p.getD j 0 - q.getD j 0) ^ 2 := by
  induction d with
  | zero =>
    intro p q hp hq
    rw [List.length_eq_zero.mp hp, List.length_eq_zero.mp hq]
    simp [euclideanDistanceSq]
  | succ d ih =>
    intro p q hp hq
    cases p with
    | nil => simp at hp
    | cons a p =>
      cases q with
      | nil => simp at hq
      | cons b q =>
        rw [euclideanDistanceSq_cons, ih p q (by simpa using hp) (by simpa using hq),
          Finset.sum_range_succ']
        simp only [List.getD_cons_succ, List.getD_cons_zero]
        ring

/-- A list sum of finite sums can be exchanged. -/
theorem sum_map_finset_sum {α : Type _} (n : ℕ) (h : α → ℕ → ℚ) :
    ∀ l : List α,
      (l.map (fun a => ∑ j ∈ Finset.range n, h a j)).sum =
        ∑ j ∈ Finset.range n, (l.map (fun a => h a j)).sum := by
  intro l
  induction l with
  | nil => simp
  | cons x rest ih =>
    rw [List.map_cons, List.sum_cons, ih]
    rw [← Finset.sum_add_distrib]
    apply Finset.sum_congr rfl
    intro j _
    rw [List.map_cons, List.sum_cons]

/-- Expansion of a sum of squared deviations. -/
theorem sum_sq_dev (t : ℚ) :
    ∀ xs : List ℚ, (xs.map (fun x => (x - t) ^ 2)).sum =
      (xs.map (fun x => x ^ 2)).sum - 2 * t * xs.sum + (xs.length : ℚ) * t ^ 2 := by
  intro xs
  induction xs with
  | nil => simp
  | cons x rest ih =>
    simp only [List.map_cons, List.sum_cons, List.length_cons, ih]
    push_cast
    ring

/-- The arithmetic mean minimises the sum of squared deviations. -/
theorem mean_min_scalar (xs : List ℚ) (hne : xs ≠ []) (c : ℚ) :
    (xs.map (fun x => (x - xs.sum / (xs.length : ℚ)) ^ 2)).sum ≤
      (xs.map (fun x => (x - c) ^ 2)).sum := by
  have hn : (0 : ℚ) < (xs.length : ℚ) := by
    have := List.length_pos.mpr hne
    exact_mod_cast this
  set n : ℚ := (xs.length : ℚ) with hn_def
  set m : ℚ := xs.sum / n with hm_def
  have hS : xs.sum = n * m := by
    rw [hm_def]
    field_simp
  rw [sum_sq_dev, sum_sq_dev, hS]
  nlinarith [mul_nonneg hn.le (sq_nonneg (c - m))]

/-- The centroid mean minimises the summed squared distance over any candidate
centroid of the same dimension. -/
theorem mean_min_vector (d : ℕ) (ps : List Point) (c : Point) (hne : ps ≠ [])
    (hd : ∀ p ∈ ps, p.length = d) (hc : c.length = d) :
    (ps.map (fun p => euclideanDistanceSq p (centroidMeanValue ps))).sum ≤
      (ps.map (fun p => euclideanDistanceSq p c)).sum := by
  obtain ⟨hMlen, hMcoord⟩ := centroidMeanValue_spec d ps hne hd
  have hL : (ps.map (fun p => euclideanDistanceSq p (centroidMeanValue ps))).sum =
      ∑ j ∈ Finset.range d, (ps.map (fun p =>
        (p.getD j 0 - (centroidMeanValue ps).getD j 0) ^ 2)).sum := by
    rw [← sum_map_finset_sum]
    congr 1
    apply List.map_congr_left
    intro p hp
    exact euclideanDistanceSq_eq_range d p _ (hd p hp) hMlen
  have hR : (ps.map (fun p => euclideanDistanceSq p c)).sum =
      ∑ j ∈ Finset.range d, (ps.map (fun p => (p.getD j 0 - c.getD j 0) ^ 2)).sum := by
    rw [← sum_map_finset_sum]
    congr 1
    apply List.map_congr_left
    intro p hp
    exact euclideanDistanceSq_eq_range d p c (hd p hp) hc
  rw [hL, hR]
  apply Finset.sum_le_sum
  intro j hj
  have hj2 : j < d := Finset.mem_range.mp hj
  have hmap1 : ps.map (fun p => (p.getD j 0 - (centroidMeanValue ps).getD j 0) ^ 2) =
      (ps.map (fun p => p.getD j 0)).map (fun x =>
        (x - (ps.map (fun p => p.getD j 0)).sum /
          (((ps.map (fun p => p.getD j 0)).length : ℕ) : ℚ)) ^ 2) := by
    rw [List.map_map]
    apply List.map_congr_left
    intro p _
    simp only [Function.comp_apply]
    rw [hMcoord j hj2, List.length_map]
  have hmap2 : ps.map (fun p => (p.getD j 0 - c.getD j 0) ^ 2) =
      (ps.map (fun p => p.getD j 0)).map (fun x => (x - c.getD j 0) ^ 2) := by
    rw [List.map_map]
    rfl
  rw [hmap1, hmap2]
  apply mean_min_scalar
  simpa using hne

/-- The first k-means++ pick is a point of the dataset whenever the random
value lies in `[0, 1)`. -/
theorem kppPick_mem (data : List Point) (hdata : data ≠ []) (r : ℚ) (hr0 : 0 ≤ r)
    (hr1 : r < 1) : data.getD (kppPickIndex data.length r) [] ∈ data := by
  have hlenpos : 0 < data.length := List.length_pos.mpr hdata
  have hfl0 : (0 : ℤ) ≤ ⌊r * (data.length : ℚ)⌋ :=
    Int.floor_nonneg.mpr (mul_nonneg hr0 (by positivity))
  have hflt : ⌊r * (data.length : ℚ)⌋ < (data.length : ℤ) := by
    apply Int.floor_lt.mpr
    calc r * (data.length : ℚ) < 1 * (data.length : ℚ) := by
          apply mul_lt_mul_of_pos_right hr1
          exact_mod_cast hlenpos
      _ = ((data.length : ℤ) : ℚ) := by push_cast; ring
  have hidx : kppPickIndex data.length r < data.length := by
    rw [kppPickIndex]
    exact (Int.toNat_lt hfl0).mpr hflt
  exact getD_mem_of_lt data [] hidx

/-- Index-wise reading of a successful centroid update: an empty cluster is
replaced by a (random) dataset point, a non-empty cluster by the successful
mean of its points. -/
theorem updateCentroids_getD (data : List Point) (hdata : data ≠ []) :
    ∀ (cl : List Cluster) (s : RandState) (u : List Point × RandState), validRand s →
      updateCentroids data cl s = .ok u → ∀ i, i < cl.length →
      ((cl.getD i ⟨[], []⟩).points = [] → u.1.getD i [] ∈ data) ∧
      ((cl.getD i ⟨[], []⟩).points ≠ [] →
        calculateCentroidPosition (cl.getD i ⟨[], []⟩).points = .ok (u.1.getD i [])) := by
  intro cl
  induction cl with
  | nil =>
    intro s u _ _ i hi
    simp at hi
  | cons c rest ih =>
    intro s u hs hu i hi
    by_cases hc : c.points.isEmpty
    · rw [updateCentroids_cons_empty data c rest s hc] at hu
      cases hrec : updateCentroids data rest ⟨s.g, s.idx + 1⟩ with
      | error e => rw [hrec] at hu; exact nomatch hu
      | ok u1 =>
        rw [hrec] at hu
        injection hu with h2
        subst h2
        cases i with
        | zero =>
          constructor
          · intro _
            simp only [List.getD_cons_zero]
            exact kppPick_mem data hdata (s.g s.idx) (hs s.idx).1 (hs s.idx).2
          · intro hne
            exact absurd (by simpa using List.isEmpty_iff.mp hc) hne
        | succ i =>
          have hrec2 := ih ⟨s.g, s.idx + 1⟩ u1 (validRand_of_g_eq rfl hs) hrec i
            (by simpa using hi)
          simpa using hrec2
    · rw [updateCentroids_cons_nonempty data c rest s (by simpa using hc)] at hu
      cases hcp : calculateCentroidPosition c.points with
      | error e => rw [hcp] at hu; exact nomatch hu
      | ok m =>
        rw [hcp] at hu
        cases hrec : updateCentroids data rest s with
        | error e => rw [hrec] at hu; exact nomatch hu
        | ok u1 =>
          rw [hrec] at hu
          injection hu with h2
          subst h2
          cases i with
          | zero =>
            constructor
            · intro hempty
              exact absurd (List.isEmpty_iff.mpr (by simpa using hempty)) hc
            · intro _
              simp only [List.getD_cons_zero]
              exact hcp
          | succ i =>
            have hrec2 := ih s u1 hs hrec i (by simpa using hi)
            simpa using hrec2

/-- One successful centroid update never increases the inertia of the
subsequent assignment: re-assigning under the updated centroids (means of the
previous buckets, or re-seeded dataset points for empty buckets) costs at most
the previous assignment's inertia. -/
theorem inertia_update_le (data cs : List Point) (s : RandState) (d : ℕ)
    (u : List Point × RandState)
    (hdata : data ≠ []) (hdim : ∀ p ∈ data, p.length = d) (hd1 : 1 ≤ d)
    (hcs : cs ≠ []) (hcsd : ∀ c ∈ cs, c.length = d) (hs : validRand s)
    (hu : updateCentroids data (assignPointsToCentroidClusters data cs) s = .ok u) :
    calculateInertia (assignPointsToCentroidClusters data u.1) ≤
      calculateInertia (assignPointsToCentroidClusters data cs) := by
  have hclLen : (assignPointsToCentroidClusters data cs).length = cs.length :=
    assign_length data cs
  have hncsLen : u.1.length = cs.length := by
    rw [(updateCentroids_ok_facts data _ s u hu).1, hclLen]
  have hcsPos : 0 < cs.length := List.length_pos.mpr hcs
  have hncsNe : u.1 ≠ [] := by
    rw [← List.length_pos, hncsLen]
    exact hcsPos
  have hkey : ∀ p ∈ data, nearestCentroidIndex p cs < cs.length :=
    fun p _ => (nearest_spec p cs hcs).1
  have h12 : calculateInertia (assignPointsToCentroidClusters data u.1) ≤
      (data.map (fun p =>
        euclideanDistanceSq p (u.1.getD (nearestCentroidIndex p cs) []))).sum := by
    rw [inertia_assign data u.1 hncsNe]
    apply List.sum_le_sum
    intro p hp
    exact (nearest_spec p u.1 hncsNe).2.1 (nearestCentroidIndex p cs)
      (by rw [hncsLen]; exact hkey p hp)
  have h3 : (data.map (fun p =>
      euclideanDistanceSq p (u.1.getD (nearestCentroidIndex p cs) []))).sum =
      ((List.range cs.length).map (fun i =>
        ((data.filter (fun p => nearestCentroidIndex p cs == i)).map
          (fun p => euclideanDistanceSq p (u.1.getD i []))).sum)).sum := by
    rw [← sum_over_buckets data cs.length (fun p => nearestCentroidIndex p cs) hkey
      (fun p => euclideanDistanceSq p (u.1.getD (nearestCentroidIndex p cs) []))]
    congr 1
    apply List.map_congr_left
    intro i _
    congr 1
    apply List.map_congr_left
    intro p hp
    have hpi : nearestCentroidIndex p cs = i := by
      simpa using (List.mem_filter.mp hp).2
    rw [hpi]
  have h4 : ((List.range cs.length).map (fun i =>
      ((data.filter (fun p => nearestCentroidIndex p cs == i)).map
        (fun p => euclideanDistanceSq p (u.1.getD i []))).sum)).sum ≤
      ((List.range cs.length).map (fun i =>
        ((data.filter (fun p => nearestCentroidIndex p cs == i)).map
          (fun p => euclideanDistanceSq p (cs.getD i []))).sum)).sum := by
    apply List.sum_le_sum
    intro i hi
    have hiLt : i < cs.length := List.mem_range.mp hi
    by_cases hb : data.filter (fun p => nearestCentroidIndex p cs == i) = []
    · rw [hb]
      simp
    · have hclGet : (assignPointsToCentroidClusters data cs).getD i ⟨[], []⟩ =
          { centroid := cs.getD i [],
            points := data.filter (fun p => nearestCentroidIndex p cs == i) } :=
        assign_getD data cs i hiLt
      have hupd := (updateCentroids_getD data hdata
        (assignPointsToCentroidClusters data cs) s u hs hu i
        (by rw [hclLen]; exact hiLt)).2
      rw [hclGet] at hupd
      have hok := calculateCentroidPosition_ok d
        (data.filter (fun p => nearestCentroidIndex p cs == i)) hb
        (fun p hp => hdim p (List.mem_filter.mp hp).1) hd1
      have hmean : u.1.getD i [] =
          centroidMeanValue (data.filter (fun p => nearestCentroidIndex p cs == i)) := by
        have hchain := (hupd hb).symm.trans hok
        injection hchain
      rw [hmean]
      apply mean_min_vector d _ _ hb
      · intro p hp
        exact hdim p (List.mem_filter.mp hp).1
      · exact hcsd _ (getD_mem_of_lt cs [] hiLt)
  calc calculateInertia (assignPointsToCentroidClusters data u.1)
      ≤ (data.map (fun p =>
          euclideanDistanceSq p (u.1.getD (nearestCentroidIndex p cs) []))).sum := h12
    _ = ((List.range cs.length).map (fun i =>
          ((data.filter (fun p => nearestCentroidIndex p cs == i)).map
            (fun p => euclideanDistanceSq p (u.1.getD i []))).sum)).sum := h3
    _ ≤ ((List.range cs.length).map (fun i =>
          ((data.filter (fun p => nearestCentroidIndex p cs == i)).map
            (fun p => euclideanDistanceSq p (cs.getD i []))).sum)).sum := h4
    _ = calculateInertia (assignPointsToCentroidClusters data cs) :=
        (inertia_assign_buckets data cs).symm

/-- C9: within a run, for consecutive completed loop iterations, the inertia
of the built clusters never increases: both bodies run without a throw (the
positive dimension rules the zero-dimension throw out) and the clusters of the
second body execution — the assignment under the just-updated centroids — have
inertia at most that of the first body execution's clusters. -/
theorem inertia_nonincreasing (data : List Point) (tol : ℚ) (d : ℕ) (st : KMState)
    (hdata : data ≠ []) (hdim : ∀ p ∈ data, p.length = d) (hd1 : 1 ≤ d)
    (hcs : st.centroids ≠ []) (hcsd : ∀ c ∈ st.centroids, c.length = d)
    (hs : validRand st.rand) :
    ∃ st1 st2, iterOnce data tol st = .ok st1 ∧ iterOnce data tol st1 = .ok st2 ∧
      calculateInertia st2.clusters ≤ calculateInertia st1.clusters := by
  obtain ⟨st1, h1⟩ := iterOnce_ok data tol d hdim hd1 st
  obtain ⟨st2, h2⟩ := iterOnce_ok data tol d hdim hd1 st1
  refine ⟨st1, st2, h1, h2, ?_⟩
  obtain ⟨u, hu, hc1, hcl1, -, -, -⟩ := iterOnce_ok_elim data tol st st1 h1
  obtain ⟨u2, -, -, hcl2, -, -, -⟩ := iterOnce_ok_elim data tol st1 st2 h2
  rw [hcl2, hcl1, hc1]
  exact inertia_update_le data st.centroids st.rand d u hdata hdim hd1 hcs hcsd hs hu

/-- C9 witness: two consecutive completed iterations on a concrete state. -/
theorem inertia_nonincreasing_witness :
    ∃ st1 st2,
      iterOnce [[0], [1], [10]] 1 ⟨[[0], [10]], [], false, 0, ⟨fun _ => 0, 0⟩⟩ = .ok st1 ∧
      iterOnce [[0], [1], [10]] 1 st1 = .ok st2 ∧
      calculateInertia st2.clusters ≤ calculateInertia st1.clusters :=
  inertia_nonincreasing [[0], [1], [10]] 1 1 ⟨[[0], [10]], [], false, 0, ⟨fun _ => 0, 0⟩⟩
    (by simp) (by decide) (by omega) (by simp) (by decide) (fun n => by norm_num)

/-! ### The coordinate guard of the centroid mean (claim C7) -/

/-- A point whose coordinates all pass the `typeof`/`isNaN` guard is summed
into the mean without error, preserving the mean's length. -/
theorem addCoordsJS_ok :
    ∀ (p m : List JSVal) (i : ℕ), m.length = p.length →
      (∀ v ∈ p, ¬ (jsTypeofNumber v = false ∨ jsIsNaN v = true)) →
      ∃ m2, addCoordsJS m p i = .ok m2 ∧ m2.length = m.length := by
  intro p
  induction p with
  | nil =>
    intro m i _ _
    refine ⟨m, ?_, rfl⟩
    cases m <;> rfl
  | cons v p ih =>
    intro m i hlen hgood
    cases m with
    | nil => simp at hlen
    | cons m0 m =>
      have hv : ¬ (jsTypeofNumber v = false ∨ jsIsNaN v = true) :=
        hgood v (List.mem_cons_self v p)
      obtain ⟨m2, hm2, hm2len⟩ := ih m (i + 1) (by simpa using hlen)
        (fun w hw => hgood w (List.mem_cons_of_mem v hw))
      refine ⟨jsAdd m0 v :: m2, ?_, by simpa using hm2len⟩
      rw [addCoordsJS, if_neg hv, hm2]

/-- A point containing a coordinate rejected by the guard makes the summation
fail with `invalidCoordinate`. -/
theorem addCoordsJS_error_of_bad :
    ∀ (p m : List JSVal) (i : ℕ), m.length = p.length →
      (∃ v ∈ p, jsTypeofNumber v = false ∨ jsIsNaN v = true) →
      ∃ j, addCoordsJS m p i = .error (.invalidCoordinate j) := by
  intro p
  induction p with
  | nil =>
    intro m i _ hbad
    obtain ⟨v, hv, -⟩ := hbad
    simp at hv
  | cons v p ih =>
    intro m i hlen hbad
    cases m with
    | nil => simp at hlen
    | cons m0 m =>
      by_cases hv : jsTypeofNumber v = false ∨ jsIsNaN v = true
      · refine ⟨i, ?_⟩
        rw [addCoordsJS, if_pos hv]
      · have hbad2 : ∃ w ∈ p, jsTypeofNumber w = false ∨ jsIsNaN w = true := by
          obtain ⟨w, hw, hwbad⟩ := hbad
          rcases List.mem_cons.mp hw with rfl | hw2
          · exact absurd hwbad hv
          · exact ⟨w, hw2, hwbad⟩
        obtain ⟨j, hj⟩ := ih m (i + 1) (by simpa using hlen) hbad2
        refine ⟨j, ?_⟩
        rw [addCoordsJS, if_neg hv, hj]

/-- A point list with no rejected coordinate is summed without error. -/
theorem centroidSumJS_ok_of_good :
    ∀ (ps : List (List JSVal)) (m : List JSVal) (d : ℕ), m.length = d →
      (∀ p ∈ ps, p.length = d) →
      (∀ p ∈ ps, ∀ v ∈ p, ¬ (jsTypeofNumber v = false ∨ jsIsNaN v = true)) →
      ∃ m2, centroidSumJS d ps m = .ok m2 := by
  intro ps
  induction ps with
  | nil => intro m d _ _ _; exact ⟨m, rfl⟩
  | cons p ps ih =>
    intro m d hm hd hgood
    have hp : p.length = d := hd p (List.mem_cons_self p ps)
    obtain ⟨m1, hm1, hm1len⟩ := addCoordsJS_ok p m 0 (by rw [hm, hp])
      (hgood p (List.mem_cons_self p ps))
    obtain ⟨m2, hm2⟩ := ih m1 d (by rw [hm1len, hm])
      (fun q hq => hd q (List.mem_cons_of_mem p hq))
      (fun q hq => hgood q (List.mem_cons_of_mem p hq))
    refine ⟨m2, ?_⟩
    rw [centroidSumJS, if_neg (by rw [hp]; exact fun h => h rfl), hm1]
    exact hm2

/-- A rejected coordinate anywhere makes the summation fail with
`invalidCoordinate`. -/
theorem centroidSumJS_error_of_bad :
    ∀ (ps : List (List JSVal)) (m : List JSVal) (d : ℕ), m.length = d →
      (∀ p ∈ ps, p.length = d) →
      (∃ p ∈ ps, ∃ v ∈ p, jsTypeofNumber v = false ∨ jsIsNaN v = true) →
      ∃ j, centroidSumJS d ps m = .error (.invalidCoordinate j) := by
  intro ps
  induction ps with
  | nil =>
    intro m d _ _ hbad
    obtain ⟨p, hp, -⟩ := hbad
    simp at hp
  | cons p ps ih =>
    intro m d hm hd hbad
    have hp : p.length = d := hd p (List.mem_cons_self p ps)
    by_cases hpbad : ∃ v ∈ p, jsTypeofNumber v = false ∨ jsIsNaN v = true
    · obtain ⟨j, hj⟩ := addCoordsJS_error_of_bad p m 0 (by rw [hm, hp]) hpbad
      refine ⟨j, ?_⟩
      rw [centroidSumJS, if_neg (by rw [hp]; exact fun h => h rfl), hj]
    · obtain ⟨m1, hm1, hm1len⟩ := addCoordsJS_ok p m 0 (by rw [hm, hp])
        (fun v hv hvbad => hpbad ⟨v, hv, hvbad⟩)
      have hbad2 : ∃ q ∈ ps, ∃ v ∈ q, jsTypeofNumber v = false ∨ jsIsNaN v = true := by
        obtain ⟨q, hq, hqbad⟩ := hbad
        rcases List.mem_cons.mp hq with rfl | hq2
        · exact absurd hqbad hpbad
        · exact ⟨q, hq2, hqbad⟩
      obtain ⟨j, hj⟩ := ih m1 d (by rw [hm1len, hm])
        (fun q hq => hd q (List.mem_cons_of_mem p hq)) hbad2
      refine ⟨j, ?_⟩
      rw [centroidSumJS, if_neg (by rw [hp]; exact fun h => h rfl), hm1]
      exact hj

/-- Summing a finite-number point into a finite-number mean is exact rational
vector addition. -/
theorem addCoordsJS_num :
    ∀ (p m : List ℚ) (i : ℕ), m.length = p.length →
      addCoordsJS (m.map JSVal.num) (p.map JSVal.num) i =
        .ok ((List.zipWith (· + ·) m p).map JSVal.num) := by
  intro p
  induction p with
  | nil =>
    intro m i hlen
    rw [List.length_eq_zero.mp hlen]
    rfl
  | cons q p ih =>
    intro m i hlen
    cases m with
    | nil => simp at hlen
    | cons a m =>
      simp only [List.map_cons, List.zipWith_cons_cons]
      rw [addCoordsJS, if_neg (by simp [jsTypeofNumber, jsIsNaN]),
        ih m (i + 1) (by simpa using hlen)]
      rfl

/-- Summing finite-number points is the exact rational summation fold. -/
theorem centroidSumJS_num :
    ∀ (ps : List (List ℚ)) (m : List ℚ) (d : ℕ), m.length = d →
      (∀ p ∈ ps, p.length = d) →
      centroidSumJS d (ps.map (fun p => p.map JSVal.num)) (m.map JSVal.num) =
        .ok ((ps.foldl (fun mean p => List.zipWith (· + ·) mean p) m).map JSVal.num) := by
  intro ps
  induction ps with
  | nil => intro m d _ _; rfl
  | cons p ps ih =>
    intro m d hm hd
    have hp : p.length = d := hd p (List.mem_cons_self p ps)
    simp only [List.map_cons, List.foldl_cons]
    rw [centroidSumJS,
      if_neg (by rw [List.length_map, hp]; exact fun h => h rfl),
      addCoordsJS_num p m 0 (by rw [hm, hp])]
    exact ih (List.zipWith (· + ·) m p) d
      (by rw [List.length_zipWith, hm, hp]; exact min_self d)
      (fun q hq => hd q (List.mem_cons_of_mem p hq))

/-- On non-empty uniform-dimension finite-number input, the JS centroid mean is
the rational centroid mean. -/
theorem calcJS_num (ps : List (List ℚ)) (d : ℕ) (hne : ps ≠ [])
    (hd : ∀ p ∈ ps, p.length = d) (hd1 : 1 ≤ d) :
    calculateCentroidPositionJS (ps.map (fun p => p.map JSVal.num)) =
      .ok ((centroidMeanValue ps).map JSVal.num) := by
  obtain ⟨q, rest, rfl⟩ : ∃ q rest, ps = q :: rest := by
    cases ps with
    | nil => exact absurd rfl hne
    | cons q rest => exact ⟨q, rest, rfl⟩
  have hq : q.length = d := hd q (List.mem_cons_self q rest)
  rw [calculateCentroidPositionJS]
  rw [if_neg (by simp)]
  have hhead : ((q :: rest).map (fun p => p.map JSVal.num)).headD [] = q.map JSVal.num := by
    simp
  rw [hhead]
  rw [if_neg (by rw [List.length_map, hq]; omega)]
  have hrep : List.replicate (q.map JSVal.num).length (JSVal.num 0) =
      (List.replicate q.length (0 : ℚ)).map JSVal.num := by
    rw [List.length_map, List.map_replicate]
  rw [hrep, centroidSumJS_num (q :: rest) (List.replicate q.length 0)
    (q.map JSVal.num).length
    (by rw [List.length_replicate, List.length_map])
    (by intro p hp; rw [List.length_map, hq]; exact hd p hp)]
  rw [centroidMeanValue]
  have hheadq : ((q :: rest).headD []).length = q.length := by simp
  rw [hheadq]
  simp only [List.map_map, List.length_map, List.length_cons]
  congr 1

/-- C7 counterexample: a coordinate equal to `+Infinity` is accepted by the
guard (`typeof Infinity === "number"` and `isNaN(Infinity)` is false), so the
centroid-mean computation succeeds instead of failing with
`InvalidCoordinate`. -/
theorem centroidJS_accepts_infinity :
    isOkE (calculateCentroidPositionJS [[JSVal.inf]]) = true := by decide

/-- C7 (amended): on non-empty uniform-dimension input the centroid-mean
computation fails with `InvalidCoordinate` exactly when some coordinate is
non-numeric or `NaN` (infinities are not rejected), and when every coordinate
is a finite number it succeeds with the coordinate-wise arithmetic mean. -/
theorem centroidJS_invalid_coordinate_iff (points : List (List JSVal)) (d : ℕ)
    (hne : points ≠ []) (hd : ∀ p ∈ points, p.length = d) (hd1 : 1 ≤ d) :
    ((∃ i, calculateCentroidPositionJS points =
        .error (.invalidCoordinate i)) ↔
      ∃ p ∈ points, ∃ v ∈ p, jsTypeofNumber v = false ∨ jsIsNaN v = true) ∧
    ((∀ p ∈ points, ∀ v ∈ p, jsFinite v = true) →
      ∃ m, calculateCentroidPosition (points.map (fun p => p.map jsToQ)) = .ok m ∧
        calculateCentroidPositionJS points = .ok (m.map JSVal.num)) := by
  obtain ⟨q, rest, rfl⟩ : ∃ q rest, points = q :: rest := by
    cases points with
    | nil => exact absurd rfl hne
    | cons q rest => exact ⟨q, rest, rfl⟩
  have hq : q.length = d := hd q (List.mem_cons_self q rest)
  have hunfold : calculateCentroidPositionJS (q :: rest) =
      match centroidSumJS ((q :: rest).headD []).length (q :: rest)
          (List.replicate ((q :: rest).headD []).length (.num 0)) with
      | .error e => .error e
      | .ok total => .ok (total.map (fun v => jsDiv v (((q :: rest).length : ℕ) : ℚ))) := by
    rw [calculateCentroidPositionJS, if_neg (by simp),
      if_neg (by simp only [List.headD_cons]; rw [hq]; omega)]
  have hheadlen : ((q :: rest).headD []).length = d := by
    simp only [List.headD_cons]
    exact hq
  constructor
  · constructor
    · rintro ⟨i, hi⟩
      by_contra hno
      push_neg at hno
      obtain ⟨m2, hm2⟩ := centroidSumJS_ok_of_good (q :: rest)
        (List.replicate ((q :: rest).headD []).length (.num 0))
        ((q :: rest).headD []).length (by rw [List.length_replicate])
        (by rw [hheadlen]; exact hd)
        (by
          intro p hp v hv hbad
          obtain ⟨h1, h2⟩ := hno p hp v hv
          rcases hbad with hb | hb
          · exact h1 hb
          · exact h2 hb)
      rw [hunfold, hm2] at hi
      exact nomatch hi
    · intro hbad
      obtain ⟨j, hj⟩ := centroidSumJS_error_of_bad (q :: rest)
        (List.replicate ((q :: rest).headD []).length (.num 0))
        ((q :: rest).headD []).length (by rw [List.length_replicate])
        (by rw [hheadlen]; exact hd) hbad
      refine ⟨j, ?_⟩
      rw [hunfold, hj]
  · intro hfin
    refine ⟨centroidMeanValue ((q :: rest).map (fun p => p.map jsToQ)), ?_, ?_⟩
    · apply calculateCentroidPosition_ok d _ (by simp)
      · intro p hp
        obtain ⟨p0, hp0, rfl⟩ := List.mem_map.mp hp
        rw [List.length_map]
        exact hd p0 hp0
      · exact hd1
    have hid : ∀ p ∈ q :: rest,
        ((fun p => List.map JSVal.num p) ∘ fun p => List.map jsToQ p) p = id p := by
      intro p hp
      simp only [Function.comp_apply, List.map_map, id]
      have hv : ∀ v ∈ p, (JSVal.num ∘ jsToQ) v = id v := by
        intro v hv
        have hf := hfin p hp v hv
        cases v with
        | num a => rfl
        | nan => exact nomatch hf
        | inf => exact nomatch hf
        | ninf => exact nomatch hf
        | other => exact nomatch hf
      rw [List.map_congr_left hv, List.map_id]
    have hpoints : ((q :: rest).map (fun p => p.map jsToQ)).map (fun p => p.map JSVal.num)
        = q :: rest := by
      rw [List.map_map, List.map_congr_left hid, List.map_id]
    calc calculateCentroidPositionJS (q :: rest)
        = calculateCentroidPositionJS
            (((q :: rest).map (fun p => p.map jsToQ)).map (fun p => p.map JSVal.num)) := by
          rw [hpoints]
      _ = .ok ((centroidMeanValue ((q :: rest).map (fun p => p.map jsToQ))).map
            JSVal.num) := by
          apply calcJS_num ((q :: rest).map (fun p => p.map jsToQ)) d (by simp)
            (by
              intro p hp
              obtain ⟨p0, hp0, rfl⟩ := List.mem_map.mp hp
              rw [List.length_map]
              exact hd p0 hp0) hd1

/-- C7 amended-claim witness: a concrete two-point finite dataset, where the
mean is computed and no `InvalidCoordinate` error is possible. -/
theorem centroidJS_invalid_coordinate_iff_witness :
    ((∃ i, calculateCentroidPositionJS [[JSVal.num 1], [JSVal.num 3]] =
        .error (.invalidCoordinate i)) ↔
      ∃ p ∈ [[JSVal.num 1], [JSVal.num 3]], ∃ v ∈ p,
        jsTypeofNumber v = false ∨ jsIsNaN v = true) ∧
    ((∀ p ∈ [[JSVal.num 1], [JSVal.num 3]], ∀ v ∈ p, jsFinite v = true) →
      ∃ m, calculateCentroidPosition
          ([[JSVal.num 1], [JSVal.num 3]].map (fun p => p.map jsToQ)) = .ok m ∧
        calculateCentroidPositionJS [[JSVal.num 1], [JSVal.num 3]] = .ok (m.map JSVal.num)) :=
  centroidJS_invalid_coordinate_iff [[JSVal.num 1], [JSVal.num 3]] 1 (by simp)
    (by decide) (by omega)
